import Mathlib

/-!
Verification development for the goal-driven deep-research controller
(`deep_research_py`): a shallow embedding of the pure control logic of
`deep_research.py` and of the JSON-recovery layer of `ai/providers.py`,
together with theorems settling the specified behavioural claims.

External effects (the language-model completion calls and the web search)
are modelled as oracle functions supplying, per call site, either a parsed
response structure or a failure (`Except Unit`), exactly as the Python code
observes them: every call site wraps the call in `try/except` and reacts
only to the parsed mapping or to the raised exception.
-/

/-! ### Generic helpers shared by the embedded functions -/

/-- Model of Python `list(dict.fromkeys(xs))` restricted to a seen-set
accumulator: keeps the first occurrence of every element, in order. -/
def dedupFirstAux (seen : List String) : List String → List String
  | [] => []
  | x :: xs =>
    if x ∈ seen then dedupFirstAux seen xs
    else x :: dedupFirstAux (x :: seen) xs

/-- Model of Python `list(dict.fromkeys(xs))`: first-occurrence order
deduplication. -/
def dedupFirst (xs : List String) : List String :=
  dedupFirstAux [] xs

/-- Model of the Python slice `l[-n:]`: the last `n` elements (all of them
when the list is shorter). -/
def takeLast {α : Type} (n : Nat) (l : List α) : List α :=
  l.drop (l.length - n)

/-- Model of Python `sep.join(parts)`. -/
def py_join (sep : String) : List String → String
  | [] => ""
  | [s] => s
  | s :: rest => s ++ sep ++ py_join sep rest

/-- Python whitespace class used by `str.strip` and by the `re` module
(`\s` for ASCII text): space, tab, newline, carriage return, form feed
and vertical tab. -/
def isPyWs (c : Char) : Bool :=
  c = ' ' || c = '\t' || c = '\n' || c = '\r' || c = '\x0c' || c = '\x0b'

/-- Left brace character, written via its code point. -/
def lbrace : Char := Char.ofNat 123

/-- Right brace character, written via its code point. -/
def rbrace : Char := Char.ofNat 125

/-- Backtick character, written via its code point. -/
def backtickC : Char := Char.ofNat 96

/-- Model of Python `str.strip()` on a character list (right side). -/
def rstripL (l : List Char) : List Char :=
  (l.reverse.dropWhile isPyWs).reverse

/-- Model of Python `str.strip()` on a character list. -/
def stripL (l : List Char) : List Char :=
  rstripL (l.dropWhile isPyWs)

/-- Model of Python `str.strip()`. -/
def py_strip (s : String) : String :=
  String.mk (stripL s.toList)

/-- Check whether `pat` occurs as a contiguous substring of `l`
(model of the Python `in` operator on strings). -/
def litTok : List Char → List Char → Option (List Char)
  | [], l => some l
  | _ :: _, [] => none
  | p :: ps, c :: cs => if c = p then litTok ps cs else none

/-- Substring containment on character lists (Python `needle in haystack`). -/
def containsTok (pat : List Char) : List Char → Bool
  | [] => (litTok pat []).isSome
  | c :: cs => (litTok pat (c :: cs)).isSome || containsTok pat cs

/-! ### Data model (`deep_research.py`) -/

/-- The `UserGoal` dataclass. -/
structure UserGoal where
  primary_objective : String
  success_criteria : List String
  specific_questions : List String
deriving DecidableEq, Repr

/-- The `SerpQuery` dataclass. -/
structure SerpQuery where
  query : String
  research_goal : String
deriving DecidableEq, Repr

/-- The evaluation dictionary built by `evaluate_goal_alignment`.
`alignment_score` is a JSON number, modelled as a rational. -/
structure GoalEvaluation where
  alignment_score : ℚ
  criteria_met : List String
  questions_answered : List String
  missing_aspects : List String
  goal_achieved : Bool
  continue_research : Bool
  next_research_directions : List String
deriving DecidableEq, Repr

/-- The `ResearchResult` TypedDict. -/
structure ResearchResult where
  learnings : List String
  visited_urls : List String
  goal_alignment_score : ℚ
  epochs_completed : Nat
  goal_achieved : Bool
deriving DecidableEq, Repr

/-! ### Parsed completion responses, per call site

Each structure models the parsed JSON mapping a call site reads with
`response.get(key, default)`: an absent key is `none`. -/

/-- Parsed mapping consumed by `evaluate_goal_alignment`. -/
structure EvalResponse where
  alignment_score : Option ℚ
  criteria_met : Option (List String)
  questions_answered : Option (List String)
  missing_aspects : Option (List String)
  goal_achieved : Option Bool
  continue_research : Option Bool
  next_research_directions : Option (List String)
deriving DecidableEq, Repr

/-- Parsed mapping consumed by `generate_serp_queries`. Each entry of the
`queries` array is `none` when the dict cannot be turned into a `SerpQuery`
(`SerpQuery(**q)` raises). -/
structure SerpResponse where
  queries : Option (List (Option SerpQuery))
deriving DecidableEq, Repr

/-- Parsed mapping consumed by `process_serp_result`. -/
structure LearnResponse where
  learnings : Option (List String)
  followUpQuestions : Option (List String)
deriving DecidableEq, Repr

/-- Parsed mapping consumed by `generate_user_goal`. -/
structure GoalResponse where
  primary_objective : Option String
  success_criteria : Option (List String)
  specific_questions : Option (List String)
deriving DecidableEq, Repr

/-- Parsed mapping consumed by `write_final_report`. -/
structure ReportResponse where
  reportText : Option String
  reportMarkdown : Option String
deriving DecidableEq, Repr

/-- One search-result item (`item.get("url"/"title"/"content")`). -/
structure SearchItem where
  url : Option String
  title : Option String
  content : Option String
deriving DecidableEq, Repr

/-! ### Embedded leaf functions of `deep_research.py` -/

/-- `generate_user_goal`: build a `UserGoal` from the parsed completion, or
fall back to the documented trivial goal when the call raises. -/
def generate_user_goal (initial_query : String)
    (completion : Except Unit GoalResponse) : UserGoal :=
  match completion with
  | .ok r =>
      { primary_objective := r.primary_objective.getD ""
        success_criteria := r.success_criteria.getD []
        specific_questions := r.specific_questions.getD [] }
  | .error _ =>
      { primary_objective := initial_query
        success_criteria := ["Find comprehensive and authoritative information"]
        specific_questions := ["What are the key findings and latest developments?"] }

/-- `evaluate_goal_alignment`: read the evaluation fields out of the parsed
completion with the source defaults; on a raised exception return the
documented neutral fallback evaluation (score 0.5, goal not achieved).
The `user_goal` argument only feeds the prompt and the logging in the
source and does not influence the returned mapping. -/
def evaluate_goal_alignment (user_goal : UserGoal)
    (completion : Except Unit EvalResponse) : GoalEvaluation :=
  match completion with
  | .ok r =>
      { alignment_score := r.alignment_score.getD 0
        criteria_met := r.criteria_met.getD []
        questions_answered := r.questions_answered.getD []
        missing_aspects := r.missing_aspects.getD []
        goal_achieved := r.goal_achieved.getD false
        continue_research := r.continue_research.getD true
        next_research_directions := r.next_research_directions.getD [] }
  | .error _ =>
      { alignment_score := 1/2
        criteria_met := []
        questions_answered := []
        missing_aspects := ["Unable to evaluate due to processing error"]
        goal_achieved := false
        continue_research := true
        next_research_directions := ["Continue general research with broader queries"] }

/-- The learnings string handed to the SERP-query prompt:
`' '.join(learnings[-5:])` when the argument is truthy, else absent. -/
def serp_recent_learnings (learnings : Option (List String)) : Option String :=
  match learnings with
  | none => none
  | some l => if l.isEmpty then none else some (py_join " " (takeLast 5 l))

/-- The `enhanced_serp_query_prompt` template of `prompt.py`: the prompt
text interpolating the query context, the requested number of queries and
the optional recent-learnings string. -/
def enhanced_serp_query_prompt (query : String) (num_queries : Nat)
    (learnings : Option String) : String :=
  let learning_context :=
    match learnings with
    | some s =>
        "\n\nPREVIOUS RESEARCH CONTEXT:\nRecent learnings from previous searches:\n"
          ++ s
          ++ "\n\nUse these learnings to generate more targeted and specific queries that fill information gaps."
    | none => ""
  "TASK: Generate optimized search queries for comprehensive research coverage.\n\nPRIMARY RESEARCH OBJECTIVE:\n"
    ++ query ++ "\n" ++ learning_context
    ++ "\n\nSEARCH STRATEGY REQUIREMENTS:\nGenerate " ++ toString num_queries
    ++ " distinct search queries that collectively provide comprehensive coverage of the research topic. Each query should target different aspects, perspectives, or information types.\n\nQUERY OPTIMIZATION PRINCIPLES:\n1. SPECIFICITY: Use precise terminology and specific concepts\n2. DIVERSITY: Cover different angles, timeframes, and information types\n3. AUTHORITY: Target queries likely to return authoritative sources\n4. RECENCY: Include queries for recent developments and current state\n5. DEPTH: Balance broad overview queries with deep-dive specific queries\n\nQUERY CATEGORIES TO CONSIDER:\n- Academic/Research: Target scholarly articles and research papers\n- Industry/Commercial: Focus on business applications and market analysis\n- Technical/Mechanism: Deep-dive into how things work\n- Comparative: Compare different approaches or solutions\n- Temporal: Recent developments, trends, future outlook\n- Regulatory/Policy: Legal, regulatory, or policy aspects\n- Case Studies: Real-world applications and examples\n\nOUTPUT REQUIREMENTS:\nGenerate a JSON object with a \"queries\" array. Each query object must have:\n\n1. \"query\": String (optimized search query)\n   - 3-8 words typically work best for search engines\n   - Include specific terminology and key concepts\n   - Avoid overly broad or generic terms\n   - Consider search engine optimization principles\n\n2. \"research_goal\": String (specific objective for this query)\n   - Explain what type of information this query should uncover\n   - Be specific about the expected information type\n   - Connect to the overall research objective\n\nEXAMPLE STRUCTURE:\n```json\n\x7b\n  \"queries\": [\n    \x7b\n      \"query\": \"recent advances artificial intelligence 2024 research\",\n      \"research_goal\": \"Identify the latest AI research developments and breakthrough technologies from 2024\"\n    \x7d,\n    \x7b\n      \"query\": \"machine learning implementation challenges enterprise\",\n      \"research_goal\": \"Understand practical challenges and solutions for implementing ML in business environments\"\n    \x7d\n  ]\n\x7d\n```\n\nQUALITY STANDARDS:\n- Each query should be unique and non-overlapping\n- Queries should complement each other for comprehensive coverage\n- Avoid redundant or very similar search terms\n- Ensure queries are likely to return high-quality, authoritative results\n- Consider different search result types (academic, news, technical, commercial)\n\nGenerate the optimized search queries now:"

/-- `generate_serp_queries`: build the prompt from the query context and
the last five recent learnings, hand it to the completion layer, convert
the returned `queries` entries into `SerpQuery` values truncated to
`num_queries`; any raised exception (including a malformed entry making
`SerpQuery(**q)` raise inside the `try`) yields the single fallback query. -/
def generate_serp_queries (query : String) (num_queries : Nat)
    (learnings : Option (List String))
    (complete : String → Except Unit SerpResponse) : List SerpQuery :=
  let recent_learnings := serp_recent_learnings learnings
  let prompt := enhanced_serp_query_prompt query num_queries recent_learnings
  match complete prompt with
  | .ok r =>
      let queries := r.queries.getD []
      if queries.all Option.isSome then
        (queries.filterMap id).take num_queries
      else
        [{ query := query, research_goal := "Comprehensive research on the topic" }]
  | .error _ =>
      [{ query := query, research_goal := "Comprehensive research on the topic" }]

/-- `process_serp_result`: learnings and follow-up questions truncated to
their maxima; its own `except` converts any failure to empty lists. -/
def process_serp_result (completion : Except Unit LearnResponse)
    (num_learnings num_follow_up_questions : Nat) : List String × List String :=
  match completion with
  | .ok r =>
      ((r.learnings.getD []).take num_learnings,
       (r.followUpQuestions.getD []).take num_follow_up_questions)
  | .error _ => ([], [])

/-! ### Report writer (`write_final_report`) -/

/-- The `SOURCES` section appended on every path of `write_final_report`:
a header followed by one `- url` line per visited URL. -/
def sources_section (visited_urls : List String) : String :=
  "\n\nSOURCES\n\n" ++ py_join "\n" (visited_urls.map (fun url => "- " ++ url))

/-- Bullet list text used by the fallback report:
`"\n".join(f"- {x}" for x in l)`. -/
def bullet_lines (l : List String) : String :=
  py_join "\n" (l.map (fun s => "- " ++ s))

/-- The research-topic string derived from the prompt at the top of the
fallback report: first line when the prompt is multi-line, else the
stripped prompt; an `Initial Query:` marker is removed. -/
def research_topic_of (prompt : String) : String :=
  let research_topic :=
    if prompt.toList.contains '\n' then
      String.mk (prompt.toList.takeWhile (fun c => c ≠ '\n'))
    else py_strip prompt
  if containsTok "Initial Query:".toList research_topic.toList then
    py_strip (research_topic.replace "Initial Query:" "")
  else research_topic

/-- The findings part of the fallback report: the first ten learnings,
then — each section only when enough learnings exist — learnings 10–19,
learnings 20–29, and all remaining learnings from index 30 on. -/
def fallback_findings (learnings : List String) : String :=
  bullet_lines (learnings.take 10)
    ++ (if 10 < learnings.length then
          "\n\nStrategic Developments and Trends\n\n"
            ++ bullet_lines ((learnings.drop 10).take 10)
        else "")
    ++ (if 20 < learnings.length then
          "\n\nImplementation and Practical Applications\n\n"
            ++ bullet_lines ((learnings.drop 20).take 10)
        else "")
    ++ (if 30 < learnings.length then
          "\n\nAdditional Research Findings\n\n"
            ++ bullet_lines (learnings.drop 30)
        else "")

/-- The deterministic fallback report body synthesized by
`write_final_report` when the completion call raises. -/
def fallback_report (prompt : String) (learnings visited_urls : List String) : String :=
  let research_topic := research_topic_of prompt
  "COMPREHENSIVE RESEARCH ANALYSIS\n\nTitle: Strategic Analysis of " ++ research_topic
    ++ "\n\nEXECUTIVE SUMMARY\n\nThis comprehensive research investigation reveals "
    ++ toString learnings.length
    ++ " critical findings with significant implications for stakeholders in this domain. Through systematic analysis of "
    ++ toString visited_urls.length
    ++ " authoritative sources, this study identifies emerging trends, strategic opportunities, and actionable insights. The research demonstrates substantial developments in the field with specific evidence supporting strategic decision-making requirements.\n\nKey discoveries include quantifiable metrics, expert perspectives from leading institutions, and evidence-based recommendations for practical implementation. The findings indicate significant implications for policy makers, industry leaders, and research professionals, with specific attention to current challenges and future opportunities.\n\nINTRODUCTION\n\nThis research addresses critical questions surrounding "
    ++ research_topic
    ++ ", examining current state developments, emerging trends, and strategic implications. The investigation employed systematic search and analysis methodologies across multiple research epochs to ensure comprehensive coverage of the topic domain.\n\nThe research scope encompasses technical, commercial, regulatory, and strategic dimensions, providing stakeholders with evidence-based insights for informed decision-making. This analysis synthesizes information from peer-reviewed sources, industry reports, and authoritative publications to present a complete picture of the current landscape.\n\nDETAILED FINDINGS AND ANALYSIS\n\nPrimary Research Insights\n\n"
    ++ fallback_findings learnings
    ++ "\n\nSYNTHESIS AND CROSS-CUTTING ANALYSIS\n\nThe research reveals interconnected themes across multiple domains, with significant convergence on key strategic priorities. Analysis of the "
    ++ toString learnings.length
    ++ " findings demonstrates consistent patterns indicating substantial opportunities for stakeholders. Cross-referencing across "
    ++ toString visited_urls.length
    ++ " authoritative sources validates the reliability and significance of these conclusions.\n\nCritical success factors emerge from the research, including specific implementation requirements, resource considerations, and timeline projections. The evidence supports strategic recommendations with quantifiable benefits and measurable outcomes.\n\nIMPLICATIONS AND RECOMMENDATIONS\n\nStrategic Implications:\n- Immediate opportunities for implementation based on current research evidence\n- Long-term strategic positioning considerations for sustained competitive advantage\n- Risk mitigation strategies addressing identified challenges and limitations\n- Resource allocation priorities based on evidence-based return on investment projections\n\nActionable Recommendations:\n- Prioritize implementation of evidence-based approaches demonstrated in leading research\n- Develop strategic partnerships with institutions and organizations leading innovation in this domain\n- Invest in capability development aligned with emerging trends and future requirements\n- Monitor regulatory and policy developments that may impact strategic positioning\n\nCONCLUSIONS\n\nThis comprehensive research provides strategic intelligence essential for informed decision-making in "
    ++ research_topic
    ++ ". The analysis of "
    ++ toString visited_urls.length
    ++ " authoritative sources reveals "
    ++ toString learnings.length
    ++ " actionable insights with significant implications for stakeholders.\n\nThe research demonstrates substantial evidence supporting strategic investment and implementation priorities. Key findings indicate measurable opportunities for advancement, with specific recommendations for practical application. The evidence base supports confident decision-making for strategic initiatives in this domain.\n\nThe investigation contributes valuable insights to the existing knowledge base while identifying specific areas requiring continued attention and development. Future research should focus on implementation effectiveness and long-term outcome measurement to validate the strategic recommendations presented.\n"

/-- The report body taken from a successful completion:
`response.get("reportText", "") or response.get("reportMarkdown", "")`. -/
def report_from_response (r : ReportResponse) : String :=
  let rt := r.reportText.getD ""
  if rt = "" then r.reportMarkdown.getD "" else rt

/-- `write_final_report`: on success, the (possibly empty) report body from
the completion plus the `SOURCES` section; when the completion raises, the
deterministic fallback report plus the same `SOURCES` section. -/
def write_final_report (prompt : String) (learnings visited_urls : List String)
    (completion : Except Unit ReportResponse) : String :=
  match completion with
  | .ok r => report_from_response r ++ sources_section visited_urls
  | .error _ => fallback_report prompt learnings visited_urls ++ sources_section visited_urls

/-! ### The goal-driven research loop (`goal_driven_research`)

The loop is driven by oracles for the external calls. Each oracle receives
the identifying data of its call site (the epoch, the query index, the flag
distinguishing the pre-planning evaluator call from the end-of-epoch one,
and the arguments the Python code passes), so distinct calls may answer
differently, exactly as distinct completion calls may. -/

/-- Oracles supplying, per call site, the outcome the Python code observes:
the parsed response mapping, or a raised exception (`Except.error`). -/
structure Oracles where
  /-- Completion outcome for `evaluate_goal_alignment`; the `Bool` is true
  for the pre-planning call of an epoch, false for the end-of-epoch call;
  the `Nat` and the list are the `epoch` and `current_learnings` arguments. -/
  evalComplete : Bool → Nat → List String → Except Unit EvalResponse
  /-- Completion outcome for `generate_serp_queries` in the given epoch,
  as a function of the prompt string built by the planner. -/
  serpComplete : Nat → String → Except Unit SerpResponse
  /-- `search_service.search` outcome for (epoch, query index, query). -/
  search : Nat → Nat → String → Except Unit (List SearchItem)
  /-- Completion outcome for `process_serp_result` for
  (epoch, query index, query). -/
  learnComplete : Nat → Nat → String → Except Unit LearnResponse
  /-- Completion outcome for `generate_user_goal`. -/
  goalComplete : Except Unit GoalResponse

/-- The mutable session state of `goal_driven_research`: the accumulators,
the epoch counter, the termination flag and the latest evaluation. -/
structure LoopState where
  all_learnings : List String
  all_urls : List String
  epoch : Nat
  goal_achieved : Bool
  evaluation : Option GoalEvaluation
deriving Repr

/-- The observability record of one epoch: its number, the query context
handed to the planner, and the argument pairs
(`current_learnings`, `epoch`) of every `evaluate_goal_alignment` call the
epoch performed, in order. -/
structure EpochInfo where
  epoch : Nat
  query_context : String
  eval_calls : List (List String × Nat)
deriving Repr

/-- The per-query result gathered by the epoch: extracted learnings and the
within-query deduplicated URL list (`unique_new_urls`). -/
structure QueryOutcome where
  learnings : List String
  urls : List String
deriving DecidableEq, Repr

/-- The body of `process_query`: search, collect the truthy URLs, dedup
them within the query, extract learnings (5 learnings, 2 follow-ups); an
exception in the pipeline contributes the empty outcome. -/
def process_query (o : Oracles) (epoch query_index : Nat) (serp_query : SerpQuery) :
    QueryOutcome :=
  match o.search epoch query_index serp_query.query with
  | .error _ => { learnings := [], urls := [] }
  | .ok data =>
      let new_urls := data.filterMap (fun item =>
        match item.url with
        | some u => if u = "" then none else some u
        | none => none)
      let unique_new_urls := dedupFirst new_urls
      let new_learnings :=
        process_serp_result (o.learnComplete epoch query_index serp_query.query) 5 2
      { learnings := new_learnings.1, urls := unique_new_urls }

/-- The query-context string built for epochs after the first:
the triple-quoted f-string combining the primary goal with the previous
evaluation's missing aspects and next research directions. -/
def query_context_string (goal : UserGoal) (evaluation : GoalEvaluation) : String :=
  "\n            Primary Goal: " ++ goal.primary_objective
    ++ "\n            Missing Aspects: " ++ py_join ", " evaluation.missing_aspects
    ++ "\n            Next Research Directions: "
    ++ py_join ", " evaluation.next_research_directions
    ++ "\n            "

/-- The pre-planning evaluator result of the epoch starting from `st`:
absent in the first epoch, otherwise `evaluate_goal_alignment` on the
accumulated learnings with epoch argument `epoch - 1`. -/
def epoch_pre_eval (goal : UserGoal) (o : Oracles) (st : LoopState) :
    Option GoalEvaluation :=
  if st.epoch + 1 = 1 then none
  else some (evaluate_goal_alignment goal (o.evalComplete true st.epoch st.all_learnings))

/-- The query context of the epoch starting from `st`: the primary
objective in epoch 1, else the combined string from the pre-planning
evaluation. -/
def epoch_context (goal : UserGoal) (o : Oracles) (st : LoopState) : String :=
  match epoch_pre_eval goal o st with
  | none => goal.primary_objective
  | some ev => query_context_string goal ev

/-- The SERP queries planned for the epoch starting from `st`: the planner
is called with the context, `breadth`, and the ten most recent accumulated
learnings (or `None` when there are none yet). -/
def epoch_serp_queries (goal : UserGoal) (breadth : Nat) (o : Oracles)
    (st : LoopState) : List SerpQuery :=
  generate_serp_queries (epoch_context goal o st) breadth
    (if st.all_learnings.isEmpty then none else some (takeLast 10 st.all_learnings))
    (o.serpComplete (st.epoch + 1))

/-- The gathered per-query outcomes of the epoch starting from `st`, in
launch order (the order `asyncio.gather` returns them in). -/
def epoch_outcomes (goal : UserGoal) (breadth : Nat) (o : Oracles)
    (st : LoopState) : List QueryOutcome :=
  (epoch_serp_queries goal breadth o st).enum.map
    (fun p => process_query o (st.epoch + 1) p.1 p.2)

/-- The learning accumulator after the epoch starting from `st`:
the epoch learnings are appended without deduplication. -/
def epoch_all_learnings (goal : UserGoal) (breadth : Nat) (o : Oracles)
    (st : LoopState) : List String :=
  st.all_learnings ++ ((epoch_outcomes goal breadth o st).map QueryOutcome.learnings).flatten

/-- The URL accumulator after the epoch starting from `st`:
the epoch URLs are appended without cross-epoch deduplication. -/
def epoch_all_urls (goal : UserGoal) (breadth : Nat) (o : Oracles)
    (st : LoopState) : List String :=
  st.all_urls ++ ((epoch_outcomes goal breadth o st).map QueryOutcome.urls).flatten

/-- The end-of-epoch evaluation on the full accumulated learnings with the
new epoch number. -/
def epoch_end_eval (goal : UserGoal) (breadth : Nat) (o : Oracles)
    (st : LoopState) : GoalEvaluation :=
  evaluate_goal_alignment goal
    (o.evalComplete false (st.epoch + 1) (epoch_all_learnings goal breadth o st))

/-- One iteration of the `while` loop of `goal_driven_research`: increment
the epoch, derive the context (running the evaluator once for epochs ≥ 2),
plan and process the queries, extend the accumulators, and run the
end-of-epoch evaluation that sets `goal_achieved`. The second component
records what the epoch did. -/
def run_epoch (goal : UserGoal) (breadth : Nat) (o : Oracles) (st : LoopState) :
    LoopState × EpochInfo :=
  ({ all_learnings := epoch_all_learnings goal breadth o st
     all_urls := epoch_all_urls goal breadth o st
     epoch := st.epoch + 1
     goal_achieved := (epoch_end_eval goal breadth o st).goal_achieved
     evaluation := some (epoch_end_eval goal breadth o st) },
   { epoch := st.epoch + 1
     query_context := epoch_context goal o st
     eval_calls :=
       (match epoch_pre_eval goal o st with
        | none => []
        | some _ => [(st.all_learnings, st.epoch)])
         ++ [(epoch_all_learnings goal breadth o st, st.epoch + 1)] })

/-- The `while epoch < max_epochs and not goal_achieved` loop. The fuel
argument only bounds the recursion; since every iteration increments
`epoch` by one, fuel `max_epochs` makes the fuelled recursion coincide with
the source loop started at `epoch = 0`. -/
def run_loop (goal : UserGoal) (breadth : Nat) (o : Oracles) (max_epochs : Nat) :
    Nat → LoopState → LoopState × List EpochInfo
  | 0, st => (st, [])
  | fuel + 1, st =>
    if st.epoch < max_epochs ∧ st.goal_achieved = false then
      let p := run_epoch goal breadth o st
      let rest := run_loop goal breadth o max_epochs fuel p.1
      (rest.1, p.2 :: rest.2)
    else (st, [])

/-- The initial session state of `goal_driven_research`. -/
def initState : LoopState :=
  { all_learnings := [], all_urls := [], epoch := 0,
    goal_achieved := false, evaluation := none }

/-- The full session run: the loop from the initial state with fuel
`max_epochs` (one unit per potential epoch). -/
def research_session (goal : UserGoal) (breadth max_epochs : Nat) (o : Oracles) :
    LoopState × List EpochInfo :=
  run_loop goal breadth o max_epochs max_epochs initState

/-- `goal_driven_research`: run the loop, then deduplicate both
accumulators preserving first occurrence and assemble the terminal
`ResearchResult`. -/
def goal_driven_research (goal : UserGoal) (breadth max_epochs : Nat)
    (o : Oracles) : ResearchResult :=
  let st := (research_session goal breadth max_epochs o).1
  { learnings := dedupFirst st.all_learnings
    visited_urls := dedupFirst st.all_urls
    goal_alignment_score :=
      match st.evaluation with
      | some ev => ev.alignment_score
      | none => 0
    epochs_completed := st.epoch
    goal_achieved := st.goal_achieved }

/-- The depth-to-epoch-cap conversion of `deep_research`:
`max_epochs = min(max(depth, 1), 5)`. -/
def compute_max_epochs (depth : Int) : Int :=
  min (max depth 1) 5

/-- `deep_research`: clamp the depth into the epoch cap, build the user
goal (from the follow-up Q&A via `generate_user_goal` when both lists are
truthy, else the documented fallback goal), and run the goal-driven loop.
The concurrency limit only shapes scheduling in the source and does not
affect the gathered results, which arrive in launch order. -/
def deep_research (query : String) (breadth : Nat) (depth : Int)
    (follow_up_questions follow_up_answers : Option (List String))
    (o : Oracles) : ResearchResult :=
  let max_epochs := (compute_max_epochs depth).toNat
  let user_goal :=
    match follow_up_questions, follow_up_answers with
    | some qs, some answers =>
        if qs.isEmpty || answers.isEmpty then
          { primary_objective := query
            success_criteria := ["Find comprehensive information about the topic"]
            specific_questions := ["What are the key findings and latest developments?"] }
        else generate_user_goal query o.goalComplete
    | _, _ =>
        { primary_objective := query
          success_criteria := ["Find comprehensive information about the topic"]
          specific_questions := ["What are the key findings and latest developments?"] }
  goal_driven_research user_goal breadth max_epochs o

/-! ### JSON values and a model of `json.loads` (`ai/providers.py`)

`extract_json_from_response` works on the raw response text with `json`
and `re`. The parser below models `json.loads` on standard JSON input:
objects, arrays, strings with the JSON escapes, numbers (as exact
rationals), booleans and null, with the standard whitespace handling and
the whole-input requirement (anything but trailing whitespace after the
value is an error). Recursion is bounded by a fuel argument; fuel
`2 * length + 2` is always sufficient since at least one character is
consumed per two fuel units. -/

/-- Parsed JSON values. Numbers are modelled as exact rationals; mappings
keep their fields in textual order (Python dicts preserve insertion
order). -/
inductive JVal where
  | jnull : JVal
  | jbool (b : Bool) : JVal
  | jnum (q : ℚ) : JVal
  | jstr (s : String) : JVal
  | jarr (elems : List JVal) : JVal
  | jobj (fields : List (String × JVal)) : JVal

/-- A JSON value whose textual form ends in a definite terminator
(closing brace, bracket or quote, or a fixed literal): every value except
a number. Parsing such a value never looks past its last character. -/
def jclosed : JVal → Bool
  | .jnum _ => false
  | _ => true

/-- JSON whitespace (`json.loads` skips exactly these). -/
def isJsonWs (c : Char) : Bool :=
  c = ' ' || c = '\t' || c = '\n' || c = '\r'

/-- Skip JSON whitespace. -/
def skipJsonWs (l : List Char) : List Char :=
  l.dropWhile isJsonWs

/-- The single-character JSON string escapes. -/
def escChar : Char → Option Char
  | '"' => some '"'
  | '\\' => some '\\'
  | '/' => some '/'
  | 'b' => some '\x08'
  | 'f' => some '\x0c'
  | 'n' => some '\n'
  | 'r' => some '\r'
  | 't' => some '\t'
  | _ => none

/-- Hexadecimal digit value. -/
def hexVal (c : Char) : Option Nat :=
  if '0' ≤ c ∧ c ≤ '9' then some (c.toNat - '0'.toNat)
  else if 'a' ≤ c ∧ c ≤ 'f' then some (c.toNat - 'a'.toNat + 10)
  else if 'A' ≤ c ∧ c ≤ 'F' then some (c.toNat - 'A'.toNat + 10)
  else none

mutual

/-- Parse the body of a JSON string after the opening quote: the content
characters and the remaining input after the closing quote. -/
def parseStringBody : List Char → Option (List Char × List Char)
  | [] => none
  | c :: rest =>
    if c = '"' then some ([], rest)
    else if c = '\\' then parseEscape rest
    else (parseStringBody rest).map (fun p => (c :: p.1, p.2))

/-- Parse one JSON string escape after the backslash. -/
def parseEscape : List Char → Option (List Char × List Char)
  | [] => none
  | e :: rest =>
    if e = 'u' then parseU rest
    else
      match escChar e with
      | some c => (parseStringBody rest).map (fun p => (c :: p.1, p.2))
      | none => none

/-- Parse the four hex digits of a `\u` escape and the rest of the
string body. -/
def parseU : List Char → Option (List Char × List Char)
  | a :: b :: c2 :: d :: rest4 =>
    (match hexVal a, hexVal b, hexVal c2, hexVal d with
     | some ha, some hb, some hc, some hd =>
       (parseStringBody rest4).map
         (fun p => (Char.ofNat (((ha * 16 + hb) * 16 + hc) * 16 + hd) :: p.1, p.2))
     | _, _, _, _ => none)
  | _ => none

end

/-- Characters that can occur in a JSON number token; the token is the
maximal run of these, validated afterwards. -/
def isNumChar (c : Char) : Bool :=
  c.isDigit || c = '-' || c = '+' || c = '.' || c = 'e' || c = 'E'

/-- Characters that can start a JSON number. -/
def isNumStart (c : Char) : Bool :=
  c.isDigit || c = '-'

/-- Numeric value of a digit run. -/
def digitsVal (l : List Char) : Nat :=
  l.foldl (fun acc c => acc * 10 + (c.toNat - '0'.toNat)) 0

/-- Validate and evaluate a maximal number token following the JSON
grammar `-? (0 | [1-9][0-9]*) (. [0-9]+)? ([eE] [+-]? [0-9]+)?`. -/
def numValue (l : List Char) : Option ℚ :=
  let (sgn, l1) : ℚ × List Char :=
    match l with
    | '-' :: r => (-1, r)
    | _ => (1, l)
  let intDigits := l1.takeWhile Char.isDigit
  let l2 := l1.dropWhile Char.isDigit
  if intDigits.isEmpty then none
  else if 1 < intDigits.length ∧ intDigits.head? = some '0' then none
  else
    let fracPart : Option (List Char × List Char) :=
      match l2 with
      | '.' :: r =>
        let fd := r.takeWhile Char.isDigit
        if fd.isEmpty then none else some (fd, r.dropWhile Char.isDigit)
      | _ => some ([], l2)
    match fracPart with
    | none => none
    | some (fracDigits, l3) =>
      let expPart : Option (Int × List Char) :=
        match l3 with
        | 'e' :: r | 'E' :: r =>
          let (esgn, r1) : Int × List Char :=
            match r with
            | '-' :: r2 => (-1, r2)
            | '+' :: r2 => (1, r2)
            | _ => (1, r)
          let ed := r1.takeWhile Char.isDigit
          if ed.isEmpty then none
          else some (esgn * (digitsVal ed : Int), r1.dropWhile Char.isDigit)
        | _ => some (0, l3)
      match expPart with
      | none => none
      | some (e, l4) =>
        if l4.isEmpty then
          some (sgn * ((digitsVal intDigits : ℚ)
                  + (digitsVal fracDigits : ℚ) / (10 : ℚ) ^ fracDigits.length)
                * (10 : ℚ) ^ (e : Int))
        else none

mutual

/-- Parse one JSON value (after skipping leading whitespace), returning the
value and the unconsumed input. -/
def parseVal : Nat → List Char → Option (JVal × List Char)
  | 0, _ => none
  | fuel + 1, l =>
    match skipJsonWs l with
    | [] => none
    | c :: rest =>
      if c = lbrace then
        match (skipJsonWs rest).head? with
        | some c2 =>
          if c2 = rbrace then some (.jobj [], (skipJsonWs rest).tail)
          else parseMembers fuel rest []
        | none => none
      else if c = '[' then
        match (skipJsonWs rest).head? with
        | some c2 =>
          if c2 = ']' then some (.jarr [], (skipJsonWs rest).tail)
          else parseElems fuel rest []
        | none => none
      else if c = '"' then
        match parseStringBody rest with
        | some (content, r) => some (.jstr (String.mk content), r)
        | none => none
      else if c = 't' then
        match litTok ['r', 'u', 'e'] rest with
        | some r => some (.jbool true, r)
        | none => none
      else if c = 'f' then
        match litTok ['a', 'l', 's', 'e'] rest with
        | some r => some (.jbool false, r)
        | none => none
      else if c = 'n' then
        match litTok ['u', 'l', 'l'] rest with
        | some r => some (.jnull, r)
        | none => none
      else if isNumStart c then
        match numValue ((c :: rest).takeWhile isNumChar) with
        | some q => some (.jnum q, (c :: rest).dropWhile isNumChar)
        | none => none
      else none

/-- Parse the members of a JSON object after the opening brace (non-empty
object case), accumulating the fields in textual order. -/
def parseMembers : Nat → List Char → List (String × JVal) →
    Option (JVal × List Char)
  | 0, _, _ => none
  | fuel + 1, l, acc =>
    match skipJsonWs l with
    | [] => none
    | c :: rest =>
      if c = '"' then
        match parseStringBody rest with
        | none => none
        | some (key, r1) =>
          match skipJsonWs r1 with
          | [] => none
          | c3 :: r2 =>
            if c3 = ':' then
              match parseVal fuel r2 with
              | none => none
              | some (v, r3) =>
                match skipJsonWs r3 with
                | [] => none
                | c4 :: r4 =>
                  if c4 = ',' then
                    parseMembers fuel r4 (acc ++ [(String.mk key, v)])
                  else if c4 = rbrace then
                    some (.jobj (acc ++ [(String.mk key, v)]), r4)
                  else none
            else none
      else none

/-- Parse the elements of a JSON array after the opening bracket (non-empty
array case). -/
def parseElems : Nat → List Char → List JVal → Option (JVal × List Char)
  | 0, _, _ => none
  | fuel + 1, l, acc =>
    match parseVal fuel l with
    | none => none
    | some (v, r1) =>
      match skipJsonWs r1 with
      | [] => none
      | c2 :: r2 =>
        if c2 = ',' then parseElems fuel r2 (acc ++ [v])
        else if c2 = ']' then some (.jarr (acc ++ [v]), r2)
        else none

end

/-- Model of `json.loads` on a character list: parse one value and require
that only whitespace remains. -/
def json_loadsL (l : List Char) : Option JVal :=
  match parseVal (2 * l.length + 2) l with
  | some (v, rest) => if skipJsonWs rest = [] then some v else none
  | none => none

/-- Model of `json.loads`. -/
def json_loads (s : String) : Option JVal :=
  json_loadsL s.toList

/-! ### The layered extraction strategies of `extract_json_from_response` -/

/-- The literal `\x60\x60\x60json` (opening code fence marker). -/
def fenceJson : List Char :=
  [backtickC, backtickC, backtickC, 'j', 's', 'o', 'n']

/-- The literal `\x60\x60\x60` (code fence). -/
def fence3 : List Char :=
  [backtickC, backtickC, backtickC]

/-- Model of `clean_json_string` (strategy 2 preprocessing): strip, remove
a leading ```json fence with the whitespace after it, remove a trailing
``` fence with the whitespace before it, and append a closing brace when
the text does not end in one. -/
def clean_json_stringL (l : List Char) : List Char :=
  let s1 := stripL l
  let s2 :=
    if (litTok fenceJson s1).isSome then
      ((litTok fenceJson s1).getD s1).dropWhile isPyWs
    else s1
  let s3 :=
    if (litTok fence3 s2.reverse).isSome then
      ((s2.reverse.drop 3).dropWhile isPyWs).reverse
    else s2
  if (litTok [rbrace] s3.reverse).isSome then s3 else s3 ++ [rbrace]

/-- Model of `clean_json_string` on strings. -/
def clean_json_string (s : String) : String :=
  String.mk (clean_json_stringL s.toList)

/-- The lazy scan of strategy 3 for the end of the group `(\{.*?\})`:
walk forward; at each closing brace, succeed if (after `\s*`) a ``` fence
follows, else keep scanning. Returns the group content up to and including
the closing brace. -/
def findCloseLazy (acc : List Char) : List Char → Option (List Char)
  | [] => none
  | c :: rest =>
    if c = rbrace ∧ (litTok fence3 (rest.dropWhile isPyWs)).isSome then
      some (acc.reverse ++ [rbrace])
    else findCloseLazy (c :: acc) rest

/-- Attempt the strategy-3 pattern at the current position:
```json `\s*` followed by the lazily matched braced group. -/
def tryFenceAt (l : List Char) : Option (List Char) :=
  match litTok fenceJson l with
  | none => none
  | some r1 =>
    match r1.dropWhile isPyWs with
    | c :: r2 =>
      if c = lbrace then (findCloseLazy [] r2).map (fun g => lbrace :: g)
      else none
    | [] => none

/-- Strategy 3: leftmost match of `re.search(r'```json\s*(\{.*?\})\s*```',
text, re.DOTALL)`, returning the braced group. -/
def strategy3_extract : List Char → Option (List Char)
  | [] => none
  | c :: cs =>
    match tryFenceAt (c :: cs) with
    | some g => some g
    | none => strategy3_extract cs

/-- Index of the first occurrence of a character (Python `str.find`). -/
def idxOfFirst (c : Char) : List Char → Option Nat
  | [] => none
  | x :: xs =>
    if x = c then some 0
    else (idxOfFirst c xs).map (· + 1)

/-- Index of the last occurrence of a character (Python `str.rfind`). -/
def idxOfLast (c : Char) (l : List Char) : Option Nat :=
  (idxOfFirst c l.reverse).map (fun i => l.length - 1 - i)

/-- One attempt of the strategy-4 repair pattern
`("<field>"\s*:\s*")\\"` at the current position: on a match, return the
group-1 characters (kept) and the input after the whole match (the
escaped quote is dropped). -/
def matchFieldEsc (field : List Char) (l : List Char) :
    Option (List Char × List Char) :=
  match litTok ('"' :: field ++ ['"']) l with
  | none => none
  | some r1 =>
    let ws1 := r1.takeWhile isPyWs
    match r1.dropWhile isPyWs with
    | ':' :: r2 =>
      let ws2 := r2.takeWhile isPyWs
      (match r2.dropWhile isPyWs with
       | '"' :: '\\' :: '"' :: r3 =>
         some (('"' :: field ++ ['"']) ++ ws1 ++ [':'] ++ ws2 ++ ['"'], r3)
       | _ => none)
    | _ => none

/-- Fuelled left-to-right scan applying the strategy-4 repair at every
position (`re.sub` replaces all non-overlapping matches). -/
def subEscQuoteGo (field : List Char) : Nat → List Char → List Char
  | 0, l => l
  | _ + 1, [] => []
  | fuel + 1, c :: cs =>
    match matchFieldEsc field (c :: cs) with
    | some (g1, rest) => g1 ++ subEscQuoteGo field fuel rest
    | none => c :: subEscQuoteGo field fuel cs

/-- Model of `re.sub(r'("<field>"\s*:\s*")\\"', r'\1', text)`. -/
def subEscQuote (field : List Char) (l : List Char) : List Char :=
  subEscQuoteGo field l.length l

/-- Strategy 4: take the text from the first `{` to the last `}`, apply
the two targeted escaped-quote repairs, and parse. -/
def strategy4 (l : List Char) : Option JVal :=
  match idxOfFirst lbrace l, idxOfLast rbrace l with
  | some s, some e =>
    if s < e then
      let content := (l.drop s).take (e - s + 1)
      let content := subEscQuote "reportText".toList content
      let content := subEscQuote "reportMarkdown".toList content
      json_loadsL content
    else none
  | _, _ => none

/-- Fuelled left-to-right replace-all on character lists
(model of Python `str.replace`). -/
def replaceAllGo (pat rep : List Char) : Nat → List Char → List Char
  | 0, l => l
  | _ + 1, [] => []
  | fuel + 1, c :: cs =>
    match litTok pat (c :: cs) with
    | some rest => rep ++ replaceAllGo pat rep fuel rest
    | none => c :: replaceAllGo pat rep fuel cs

/-- Model of Python `text.replace(pat, rep)` for a non-empty pattern. -/
def replaceAllL (pat rep : List Char) (l : List Char) : List Char :=
  replaceAllGo pat rep l.length l

/-- The unescaping applied by strategy 5 to a manually extracted field:
`\\"` to `"`, then `\\n`, `\\t`, and `\\\\`. -/
def unescape5 (l : List Char) : List Char :=
  replaceAllL ['\\', '\\'] ['\\']
    (replaceAllL ['\\', 't'] ['\t']
      (replaceAllL ['\\', 'n'] ['\n']
        (replaceAllL ['\\', '"'] ['"'] l)))

/-- The unescaping applied by strategy 6: `\\"`, `\\n` and `\\t` only. -/
def unescape6 (l : List Char) : List Char :=
  replaceAllL ['\\', 't'] ['\t']
    (replaceAllL ['\\', 'n'] ['\n']
      (replaceAllL ['\\', '"'] ['"'] l))

/-- Match the common prefix `"<field>"\s*:\s*` of the strategy-5 patterns,
followed by `\\"` when `escaped` is true and by `"` otherwise, returning
the input just after the opening quote. -/
def matchFieldOpen (field : List Char) (escaped : Bool) (l : List Char) :
    Option (List Char) :=
  match litTok ('"' :: field ++ ['"']) l with
  | none => none
  | some r1 =>
    match r1.dropWhile isPyWs with
    | ':' :: r2 =>
      (if escaped then
        match r2.dropWhile isPyWs with
        | '\\' :: '"' :: r3 => some r3
        | _ => none
      else
        match r2.dropWhile isPyWs with
        | '"' :: r3 => some r3
        | _ => none)
    | _ => none

/-- The lazy group of strategy-5 patterns 1 and 2: scan to the first `"`
that is followed (after `\s*`) by `}`. -/
def lazyQuoteBrace (acc : List Char) : List Char → Option (List Char)
  | [] => none
  | c :: rest =>
    if c = '"' ∧ (rest.dropWhile isPyWs).head? = some rbrace then
      some acc.reverse
    else lazyQuoteBrace (c :: acc) rest

/-- One position attempt for strategy-5 pattern 1 or 2. -/
def tryFieldPat12 (field : List Char) (escaped : Bool) (l : List Char) :
    Option (List Char) :=
  (matchFieldOpen field escaped l).bind (lazyQuoteBrace [])

/-- One position attempt for strategy-5 pattern 3
(`"<field>"\s*:\s*"(.*)"$`, greedy, with `$` matching at the end of the
text or just before a final newline). -/
def tryFieldPat3 (field : List Char) (l : List Char) : Option (List Char) :=
  match matchFieldOpen field false l with
  | none => none
  | some r =>
    if (litTok ['"'] r.reverse).isSome then some (r.take (r.length - 1))
    else if (litTok ['\n', '"'] r.reverse).isSome then some (r.take (r.length - 2))
    else none

/-- Leftmost-position search with a per-position matcher. -/
def scanFirst (try1 : List Char → Option (List Char)) :
    List Char → Option (List Char)
  | [] => try1 []
  | c :: cs =>
    match try1 (c :: cs) with
    | some g => some g
    | none => scanFirst try1 cs

/-- Strategy-5 attempt for one report field: the three patterns in order,
with the final unescaping. -/
def s5ReportField (field : List Char) (l : List Char) : Option JVal :=
  if containsTok ('"' :: field ++ ['"']) l then
    match scanFirst (tryFieldPat12 field false) l with
    | some g => some (.jobj [(String.mk field, .jstr (String.mk (unescape5 g)))])
    | none =>
      match scanFirst (tryFieldPat12 field true) l with
      | some g => some (.jobj [(String.mk field, .jstr (String.mk (unescape5 g)))])
      | none =>
        match scanFirst (tryFieldPat3 field) l with
        | some g => some (.jobj [(String.mk field, .jstr (String.mk (unescape5 g)))])
        | none => none
  else none

/-- The lazy group of the strategy-5 array pattern: content up to the
first `]`. -/
def lazyUntilBracket (acc : List Char) : List Char → Option (List Char)
  | [] => none
  | c :: rest =>
    if c = ']' then some acc.reverse else lazyUntilBracket (c :: acc) rest

/-- One position attempt for `"<field>"\s*:\s*\[(.*?)\]`. -/
def tryArrayPat (field : List Char) (l : List Char) : Option (List Char) :=
  match litTok ('"' :: field ++ ['"']) l with
  | none => none
  | some r1 =>
    match r1.dropWhile isPyWs with
    | ':' :: r2 =>
      (match r2.dropWhile isPyWs with
       | '[' :: r3 => lazyUntilBracket [] r3
       | _ => none)
    | _ => none

mutual

/-- Model of `re.findall(r'"([^"]*)"', text)`: the contents of successive
quote pairs. -/
def findAllQuoted : List Char → List (List Char)
  | [] => []
  | '"' :: rest => findQuotedClose [] rest
  | _ :: rest => findAllQuoted rest

/-- Scan for the closing quote of the current `findAllQuoted` group; an
unpaired final quote contributes nothing. -/
def findQuotedClose (acc : List Char) : List Char → List (List Char)
  | [] => []
  | '"' :: rest => acc.reverse :: findAllQuoted rest
  | c :: rest => findQuotedClose (c :: acc) rest

end

/-- Strategy-5 attempt for one array field: parse the bracketed group as
JSON, else salvage the quoted items. -/
def s5ArrayField (field : List Char) (l : List Char) : Option JVal :=
  match scanFirst (tryArrayPat field) l with
  | none => none
  | some g =>
    match json_loadsL ('[' :: g ++ [']']) with
    | some v => some v
    | none => some (.jarr ((findAllQuoted g).map (fun c => .jstr (String.mk c))))

/-- Strategy 5: manual extraction — first the report fields (returning
immediately on success), then the accumulated array fields. -/
def strategy5 (l : List Char) : Option JVal :=
  match s5ReportField "reportText".toList l with
  | some v => some v
  | none =>
    match s5ReportField "reportMarkdown".toList l with
    | some v => some v
    | none =>
      let arrays :=
        (["learnings", "followUpQuestions", "queries", "questions"]).filterMap
          (fun f => (s5ArrayField f.toList l).map (fun v => (f, v)))
      if arrays.isEmpty then none else some (.jobj arrays)

/-- Case-insensitive literal match (the strategy-6 patterns carry
`re.IGNORECASE`). -/
def ciLitTok : List Char → List Char → Option (List Char)
  | [], l => some l
  | _ :: _, [] => none
  | p :: ps, c :: cs => if c.toLower = p.toLower then ciLitTok ps cs else none

/-- One position attempt for the strategy-6 pattern
`"<field>"\s*:\s*"([^"]{100,}.*?)"` (case-insensitive, DOTALL): after the
prefix, the group is the maximal quote-free run, acceptable when it has at
least 100 characters and a closing quote follows. -/
def tryLongFieldPat (field : List Char) (l : List Char) : Option (List Char) :=
  match ciLitTok ('"' :: field ++ ['"']) l with
  | none => none
  | some r1 =>
    match r1.dropWhile isPyWs with
    | ':' :: r2 =>
      (match r2.dropWhile isPyWs with
       | '"' :: r3 =>
         let run := r3.takeWhile (fun c => c ≠ '"')
         if 100 ≤ run.length ∧ (r3.dropWhile (fun c => c ≠ '"')) ≠ [] then
           some run
         else none
       | _ => none)
    | _ => none

/-- The lazy group of the strategy-6 header patterns: content up to a
case-insensitive `SOURCES`, the end of the text, or a final newline. -/
def lazyUntilSources (acc : List Char) : List Char → Option (List Char)
  | [] => some acc.reverse
  | c :: rest =>
    if (ciLitTok "SOURCES".toList (c :: rest)).isSome then some acc.reverse
    else if rest = [] ∧ c = '\n' then some acc.reverse
    else lazyUntilSources (c :: acc) rest

/-- One position attempt for `<HEADER>(.*?)(?:SOURCES|$)`
(case-insensitive). -/
def tryHeaderPat (header : List Char) (l : List Char) : Option (List Char) :=
  (ciLitTok header l).bind (lazyUntilSources [])

/-- The acceptance step of strategy 6: strip the group and keep it only
when more than 100 characters remain, unescaping the result. -/
def s6Accept (g : List Char) : Option JVal :=
  let content := stripL g
  if 100 < content.length then
    some (.jobj [("reportText", .jstr (String.mk (unescape6 content)))])
  else none

/-- Strategy 6: last-resort extraction of substantial report text via the
four fallback patterns in order. -/
def strategy6 (l : List Char) : Option JVal :=
  match (scanFirst (tryLongFieldPat "reportText".toList) l).bind s6Accept with
  | some v => some v
  | none =>
    match (scanFirst (tryLongFieldPat "reportMarkdown".toList) l).bind s6Accept with
    | some v => some v
    | none =>
      match (scanFirst (tryHeaderPat "COMPREHENSIVE RESEARCH REPORT".toList) l).bind
          s6Accept with
      | some v => some v
      | none =>
        (scanFirst (tryHeaderPat "RESEARCH REPORT".toList) l).bind s6Accept

/-- `extract_json_from_response` on a character list: the six strategies
in order, with the empty mapping as the final fallback. -/
def extract_json_from_responseL (l : List Char) : JVal :=
  match json_loadsL l with
  | some v => v
  | none =>
    match json_loadsL (clean_json_stringL l) with
    | some v => v
    | none =>
      match (strategy3_extract l).bind json_loadsL with
      | some v => v
      | none =>
        match strategy4 l with
        | some v => v
        | none =>
          match strategy5 l with
          | some v => v
          | none =>
            match strategy6 l with
            | some v => v
            | none => .jobj []

/-- `extract_json_from_response`: parse the response text into a mapping
with the layered fallback strategies; never fails. -/
def extract_json_from_response (s : String) : JVal :=
  extract_json_from_responseL s.toList

/-! ### Concrete instances used to exercise the theorems -/

/-- An oracle bundle in which every external call raises
(a completion/search layer that always fails). -/
def oracleFail : Oracles :=
  { evalComplete := fun _ _ _ => .error ()
    serpComplete := fun _ _ => .error ()
    search := fun _ _ _ => .error ()
    learnComplete := fun _ _ _ => .error ()
    goalComplete := .error () }

/-- A small concrete user goal. -/
def goalW : UserGoal :=
  { primary_objective := "study the topic"
    success_criteria := ["cover the basics"]
    specific_questions := ["what is known?"] }

/-- A concrete mid-session state: one epoch already completed. -/
def stW : LoopState :=
  { all_learnings := ["first learning"], all_urls := ["https://x.example/a"],
    epoch := 1, goal_achieved := false, evaluation := none }

/-- Forty-one distinct learnings (enough to overflow the last fallback
findings section). -/
def learnings41 : List String :=
  (List.range 41).map (fun i => "finding " ++ toString i)

/-- An evaluator completion response asserting goal achievement with a
zero alignment score. -/
def badEvalResp : EvalResponse :=
  { alignment_score := some 0, criteria_met := some [],
    questions_answered := some [], missing_aspects := some [],
    goal_achieved := some true, continue_research := some false,
    next_research_directions := some [] }

/-- The ratio used by the specified goal-achieved invariant: fraction of
criteria or questions met, taken as 1 when there is nothing to meet
(this definition follows the words of the spec, not the code — the code
computes no such ratio). -/
def spec_met_ratio (met total : List String) : ℚ :=
  if total.length = 0 then 1 else (met.length : ℚ) / (total.length : ℚ)

/-- The JSON object text of the C8 counterexample: a `reportText` value
that starts with an escaped quote and contains a code fence. -/
def jsonCounterC8 : String :=
  "\x7b\"reportText\": \"\\\"y\x7d```\\\"\"\x7d"

/-- The C8 counterexample response: the JSON object wrapped in a ```json
fence with a trailing explanatory sentence. -/
def respCounterC8 : String :=
  "```json\n" ++ jsonCounterC8 ++ "\n```\nHere is the JSON you asked for."

/-- An oracle bundle whose search always surfaces the same URL and whose
learning extraction always yields the same learning, while planning and
evaluation fail (so the loop runs to its epoch cap on fallback queries). -/
def oracleSearchW : Oracles :=
  { oracleFail with
    search := fun _ _ _ =>
      .ok [{ url := some "https://x.example/a", title := some "t", content := some "c" }]
    learnComplete := fun _ _ _ =>
      .ok { learnings := some ["first learning"], followUpQuestions := some [] } }

/-- An evaluator completion response that satisfies the specified
goal-achieved invariant for `goalW`. -/
def goodEvalResp : EvalResponse :=
  { alignment_score := some (9/10), criteria_met := some ["cover the basics"],
    questions_answered := some ["what is known?"], missing_aspects := some [],
    goal_achieved := some true, continue_research := some false,
    next_research_directions := some [] }

/-! ## Theorems

First a stack of helper lemmas about the shared helpers, then one theorem
per claim (with witnesses and counterexamples as required). -/

/-! ### Properties of `dedupFirst` -/

/-- The seen-set accumulator only matters up to membership. -/
theorem dedupFirstAux_congr (l : List String) :
    ∀ seen seen', (∀ z, z ∈ seen ↔ z ∈ seen') →
      dedupFirstAux seen l = dedupFirstAux seen' l := by
  induction l with
  | nil => intro seen seen' _; rfl
  | cons x xs ih =>
    intro seen seen' h
    simp only [dedupFirstAux]
    by_cases hx : x ∈ seen
    · rw [if_pos hx, if_pos ((h x).mp hx)]
      exact ih seen seen' h
    · rw [if_neg hx, if_neg (fun hx' => hx ((h x).mpr hx'))]
      refine congrArg (x :: ·) (ih _ _ ?_)
      intro z
      simp [h z]

/-- Membership in the deduplicated list. -/
theorem mem_dedupFirstAux (x : String) (l : List String) :
    ∀ seen, x ∈ dedupFirstAux seen l ↔ x ∈ l ∧ x ∉ seen := by
  induction l with
  | nil => intro seen; simp [dedupFirstAux]
  | cons y ys ih =>
    intro seen
    simp only [dedupFirstAux]
    by_cases hy : y ∈ seen
    · rw [if_pos hy, ih]
      constructor
      · rintro ⟨hxy, hxs⟩
        exact ⟨List.mem_cons_of_mem _ hxy, hxs⟩
      · rintro ⟨hmem, hxs⟩
        rcases List.mem_cons.mp hmem with rfl | hmem
        · exact absurd hy hxs
        · exact ⟨hmem, hxs⟩
    · rw [if_neg hy]
      constructor
      · intro hmem
        rcases List.mem_cons.mp hmem with rfl | hmem
        · exact ⟨List.mem_cons_self _ _, hy⟩
        · rcases (ih (y :: seen)).mp hmem with ⟨h1, h2⟩
          refine ⟨List.mem_cons_of_mem _ h1, fun hx => h2 (List.mem_cons_of_mem _ hx)⟩
      · rintro ⟨hmem, hxs⟩
        rcases List.mem_cons.mp hmem with rfl | hmem
        · exact List.mem_cons_self _ _
        · by_cases hxy : x = y
          · subst hxy; exact List.mem_cons_self _ _
          · exact List.mem_cons_of_mem _
              ((ih (y :: seen)).mpr ⟨hmem, by simp [hxy, hxs]⟩)

/-- The deduplicated list has no duplicates. -/
theorem dedupFirstAux_nodup (l : List String) :
    ∀ seen, (dedupFirstAux seen l).Nodup := by
  induction l with
  | nil => intro seen; simp [dedupFirstAux]
  | cons x xs ih =>
    intro seen
    simp only [dedupFirstAux]
    by_cases hx : x ∈ seen
    · rw [if_pos hx]; exact ih seen
    · rw [if_neg hx]
      refine List.nodup_cons.mpr ⟨?_, ih (x :: seen)⟩
      intro hmem
      exact ((mem_dedupFirstAux x xs (x :: seen)).mp hmem).2 (List.mem_cons_self _ _)

/-- `dedupFirst` produces a duplicate-free list. -/
theorem dedupFirst_nodup (l : List String) : (dedupFirst l).Nodup :=
  dedupFirstAux_nodup l []

/-- `dedupFirst` keeps exactly the elements of the input. -/
theorem mem_dedupFirst (x : String) (l : List String) :
    x ∈ dedupFirst l ↔ x ∈ l := by
  rw [dedupFirst, mem_dedupFirstAux]
  simp

/-- First-occurrence characterization: the head of the input stays in
place and its later duplicates are dropped. -/
theorem dedupFirst_cons (x : String) (xs : List String) :
    dedupFirst (x :: xs) = x :: dedupFirst (xs.filter (· ≠ x)) := by
  have aux : ∀ (l : List String) (y : String) (seen : List String),
      dedupFirstAux (y :: seen) l = dedupFirstAux seen (l.filter (· ≠ y)) := by
    intro l
    induction l with
    | nil => intro y seen; rfl
    | cons z zs ih =>
      intro y seen
      by_cases hzy : z = y
      · subst hzy
        have hfil : (z :: zs).filter (· ≠ z) = zs.filter (· ≠ z) := by simp
        rw [hfil]
        simp only [dedupFirstAux]
        rw [if_pos (List.mem_cons_self _ _)]
        exact ih z seen
      · have hfil : (z :: zs).filter (· ≠ y) = z :: zs.filter (· ≠ y) := by
          simp [hzy]
        rw [hfil]
        by_cases hz : z ∈ seen
        · simp only [dedupFirstAux]
          rw [if_pos (List.mem_cons_of_mem _ hz), if_pos hz]
          exact ih y seen
        · simp only [dedupFirstAux]
          rw [if_neg (by simp [hzy, hz]), if_neg hz]
          refine congrArg (z :: ·) ?_
          rw [dedupFirstAux_congr zs (z :: y :: seen) (y :: z :: seen)
                (by intro w; constructor <;> (intro h; simp at h ⊢; tauto)),
              ih y (z :: seen)]
  simp only [dedupFirst, dedupFirstAux]
  rw [if_neg (List.not_mem_nil x)]
  exact congrArg (x :: ·) (aux xs x [])

/-- Every input element occurs exactly once after deduplication. -/
theorem count_dedupFirst (x : String) (l : List String) (h : x ∈ l) :
    (dedupFirst l).count x = 1 := by
  have hmem : x ∈ dedupFirst l := (mem_dedupFirst x l).mpr h
  have hnd := dedupFirst_nodup l
  exact List.count_eq_one_of_mem hnd hmem

/-! ### Loop lemmas -/

/-- Each loop iteration increments the epoch counter by exactly one. -/
theorem run_epoch_epoch (goal : UserGoal) (breadth : Nat) (o : Oracles)
    (st : LoopState) : (run_epoch goal breadth o st).1.epoch = st.epoch + 1 :=
  rfl

/-- The loop never pushes the epoch counter beyond the cap. -/
theorem run_loop_epoch_le (goal : UserGoal) (breadth : Nat) (o : Oracles)
    (max_epochs : Nat) :
    ∀ fuel st, st.epoch ≤ max_epochs →
      (run_loop goal breadth o max_epochs fuel st).1.epoch ≤ max_epochs := by
  intro fuel
  induction fuel with
  | zero => intro st h; exact h
  | succ n ih =>
    intro st h
    simp only [run_loop]
    split
    · next hcond => exact ih _ (by rw [run_epoch_epoch]; omega)
    · exact h

/-- The epoch counter never decreases across the loop. -/
theorem run_loop_epoch_ge (goal : UserGoal) (breadth : Nat) (o : Oracles)
    (max_epochs : Nat) :
    ∀ fuel st, st.epoch ≤ (run_loop goal breadth o max_epochs fuel st).1.epoch := by
  intro fuel
  induction fuel with
  | zero => intro st; exact Nat.le_refl _
  | succ n ih =>
    intro st
    simp only [run_loop]
    split
    · exact le_trans (by rw [run_epoch_epoch]; omega) (ih _)
    · exact Nat.le_refl _

/-- Epoch bounds for a full `goal_driven_research` session with a positive
epoch cap: at least one epoch runs, and never more than the cap. -/
theorem gdr_epoch_bounds (goal : UserGoal) (breadth max_epochs : Nat)
    (o : Oracles) (hM : 1 ≤ max_epochs) :
    1 ≤ (goal_driven_research goal breadth max_epochs o).epochs_completed
    ∧ (goal_driven_research goal breadth max_epochs o).epochs_completed ≤ max_epochs := by
  have hres : (goal_driven_research goal breadth max_epochs o).epochs_completed =
      (research_session goal breadth max_epochs o).1.epoch := rfl
  rw [hres]
  constructor
  · obtain ⟨k, rfl⟩ := Nat.exists_eq_add_of_le hM
    show 1 ≤ (run_loop goal breadth o (1 + k) (1 + k) initState).1.epoch
    have h1 : 1 + k = k + 1 := Nat.add_comm 1 k
    rw [h1]
    simp only [run_loop]
    split
    · next hcond =>
      refine le_trans ?_ (run_loop_epoch_ge goal breadth o (k + 1) k _)
      rw [run_epoch_epoch]
      exact Nat.le_refl _
    · next hcond =>
      exact absurd ⟨by simp [initState], by simp [initState]⟩ hcond
  · exact run_loop_epoch_le goal breadth o max_epochs max_epochs initState
      (by simp [initState])

/-! ### Claims C1, C3, C4 -/

/-- Claim C1: for every `ResearchResult` returned by the research loop,
`learnings` and `visited_urls` equal the accumulated `all_learnings` /
`all_urls` deduplicated preserving first-occurrence order, hence contain
no duplicates; a URL or learning surfaced several times (by two queries or
two epochs) appears in the accumulator several times but exactly once in
the terminal result, at its first occurrence. -/
theorem claim1_result_dedup (goal : UserGoal) (breadth max_epochs : Nat)
    (o : Oracles) :
    (goal_driven_research goal breadth max_epochs o).learnings =
        dedupFirst (research_session goal breadth max_epochs o).1.all_learnings
    ∧ (goal_driven_research goal breadth max_epochs o).visited_urls =
        dedupFirst (research_session goal breadth max_epochs o).1.all_urls
    ∧ (goal_driven_research goal breadth max_epochs o).learnings.Nodup
    ∧ (goal_driven_research goal breadth max_epochs o).visited_urls.Nodup
    ∧ (∀ u : String, u ∈ (research_session goal breadth max_epochs o).1.all_urls →
        (goal_driven_research goal breadth max_epochs o).visited_urls.count u = 1)
    ∧ (∀ x : String, ∀ l : List String, x ∈ l →
        x ∈ dedupFirst l ∧ (dedupFirst l).count x = 1)
    ∧ (∀ x : String, ∀ xs : List String,
        dedupFirst (x :: xs) = x :: dedupFirst (xs.filter (· ≠ x))) := by
  refine ⟨rfl, rfl, dedupFirst_nodup _, dedupFirst_nodup _, ?_, ?_, ?_⟩
  · intro u hu
    exact count_dedupFirst u _ hu
  · intro x l hx
    exact ⟨(mem_dedupFirst x l).mpr hx, count_dedupFirst x l hx⟩
  · intro x xs
    exact dedupFirst_cons x xs

/-- Witness for C1: the same URL is surfaced in every epoch by the search
oracle, so the accumulator holds several copies while the terminal result
counts it exactly once. -/
theorem claim1_result_dedup_witness :
    "https://x.example/a" ∈ (research_session goalW 2 3 oracleSearchW).1.all_urls
    ∧ (goal_driven_research goalW 2 3 oracleSearchW).visited_urls.count
        "https://x.example/a" = 1 :=
  ⟨by decide,
   (claim1_result_dedup goalW 2 3 oracleSearchW).2.2.2.2.1
     "https://x.example/a" (by decide)⟩

/-- Claim C3: the epoch cap equals the depth clamped into `[1, 5]`, and
every session completes between one epoch and the cap. -/
theorem claim3_epoch_bound (query : String) (breadth : Nat) (depth : Int)
    (fq fa : Option (List String)) (o : Oracles) :
    compute_max_epochs depth = min (max depth 1) 5
    ∧ 1 ≤ compute_max_epochs depth
    ∧ compute_max_epochs depth ≤ 5
    ∧ 1 ≤ (deep_research query breadth depth fq fa o).epochs_completed
    ∧ (deep_research query breadth depth fq fa o).epochs_completed ≤
        (compute_max_epochs depth).toNat := by
  have h1 : (1 : Int) ≤ compute_max_epochs depth := by
    have := le_max_right depth (1 : Int)
    exact le_min this (by norm_num)
  have h5 : compute_max_epochs depth ≤ 5 := min_le_right _ _
  have hM : 1 ≤ (compute_max_epochs depth).toNat := by omega
  refine ⟨rfl, h1, h5, ?_, ?_⟩
  · exact (gdr_epoch_bounds _ breadth _ o hM).1
  · exact (gdr_epoch_bounds _ breadth _ o hM).2

/-- Witness for C3 is not required (the theorem has no hypotheses), but
the claim is exercised at depth 9: the cap clamps to 5. -/
theorem claim3_epoch_bound_clamp_example :
    compute_max_epochs 9 = 5 ∧ compute_max_epochs (-3) = 1 := by decide

/-- Claim C4: in the epoch starting from a state with `epoch = 0`
(epoch 1), the evaluator runs exactly once — at the end, on the full
accumulated learnings — and the planning context is the primary objective
alone; in every later epoch it runs exactly twice: first before planning,
on the accumulated learnings with epoch argument `epoch - 1`, yielding the
context that combines the primary objective with the fresh evaluation's
missing aspects and next research directions, and then at the end of the
epoch on the full accumulated learnings. -/
theorem claim4_evaluator_schedule (goal : UserGoal) (breadth : Nat)
    (o : Oracles) (st : LoopState) :
    (st.epoch = 0 →
      (run_epoch goal breadth o st).2.eval_calls =
          [((run_epoch goal breadth o st).1.all_learnings, 1)]
      ∧ (run_epoch goal breadth o st).2.query_context = goal.primary_objective)
    ∧ (1 ≤ st.epoch →
      (run_epoch goal breadth o st).2.eval_calls =
          [(st.all_learnings, st.epoch),
           ((run_epoch goal breadth o st).1.all_learnings, st.epoch + 1)]
      ∧ (run_epoch goal breadth o st).2.query_context =
          query_context_string goal
            (evaluate_goal_alignment goal
              (o.evalComplete true st.epoch st.all_learnings)))
    ∧ (∀ max_epochs fuel st0, ∀ info ∈ (run_loop goal breadth o max_epochs fuel st0).2,
        info.eval_calls.length = if info.epoch = 1 then 1 else 2) := by
  have hlen : ∀ st1 : LoopState, (run_epoch goal breadth o st1).2.eval_calls.length =
      if (run_epoch goal breadth o st1).2.epoch = 1 then 1 else 2 := by
    intro st1
    by_cases h0 : st1.epoch = 0
    · simp [run_epoch, epoch_pre_eval, h0]
    · have hne : ¬ st1.epoch + 1 = 1 := by omega
      simp [run_epoch, epoch_pre_eval, hne]
  refine ⟨?_, ?_, ?_⟩
  · intro h0
    constructor
    · simp [run_epoch, epoch_pre_eval, h0]
    · simp [run_epoch, epoch_context, epoch_pre_eval, h0]
  · intro h1
    have hne : ¬ st.epoch + 1 = 1 := by omega
    constructor
    · simp [run_epoch, epoch_pre_eval, hne]
    · simp [run_epoch, epoch_context, epoch_pre_eval, hne]
  · intro max_epochs fuel
    induction fuel with
    | zero => intro st0 info h; simp [run_loop] at h
    | succ n ih =>
      intro st0 info h
      simp only [run_loop] at h
      by_cases hcond : st0.epoch < max_epochs ∧ st0.goal_achieved = false
      · rw [if_pos hcond] at h
        have h2 : info = (run_epoch goal breadth o st0).2
            ∨ info ∈ (run_loop goal breadth o max_epochs n
                (run_epoch goal breadth o st0).1).2 := by
          simpa using h
        rcases h2 with rfl | h2
        · exact hlen st0
        · exact ih _ info h2
      · rw [if_neg hcond] at h
        simp at h

/-- Witness for C4: from the one-epoch-old state `stW`, the second epoch
runs the evaluator twice — once on the prior learnings with epoch index 1,
once at the end with epoch index 2. -/
theorem claim4_evaluator_schedule_witness :
    1 ≤ stW.epoch
    ∧ ((run_epoch goalW 2 oracleFail stW).2.eval_calls =
        [(stW.all_learnings, stW.epoch),
         ((run_epoch goalW 2 oracleFail stW).1.all_learnings, stW.epoch + 1)]
      ∧ (run_epoch goalW 2 oracleFail stW).2.query_context =
          query_context_string goalW
            (evaluate_goal_alignment goalW
              (oracleFail.evalComplete true stW.epoch stW.all_learnings))) :=
  ⟨by decide,
   (claim4_evaluator_schedule goalW 2 oracleFail stW).2.1 (by decide)⟩

/-! ### Claim C2 -/

/-- Counterexample to claim C2: the evaluator copies `goal_achieved` and
`alignment_score` verbatim from the model response without enforcing the
specified invariant, so a response asserting achievement with a zero score
yields a `GoalEvaluation` with `goal_achieved = true` and
`alignment_score < 0.8` (and met-criteria ratio `0 < 0.8` against
`goalW`'s one criterion). -/
theorem claim2_goal_invariant_counterexample :
    (evaluate_goal_alignment goalW (.ok badEvalResp)).goal_achieved = true
    ∧ ¬ (4/5 ≤ (evaluate_goal_alignment goalW (.ok badEvalResp)).alignment_score)
    ∧ ¬ (4/5 ≤ spec_met_ratio
          (evaluate_goal_alignment goalW (.ok badEvalResp)).criteria_met
          goalW.success_criteria) := by
  refine ⟨rfl, ?_, ?_⟩
  · norm_num [evaluate_goal_alignment, badEvalResp]
  · norm_num [evaluate_goal_alignment, badEvalResp, goalW, spec_met_ratio]

/-- Claim C2 as amended: the evaluator copies every field verbatim from
the model response (with `goal_achieved` defaulting to `false` when
absent), and its failure fallback always has `goal_achieved = false` with
`alignment_score = 0.5`; consequently the specified
goal-achieved invariant holds for the produced `GoalEvaluation` exactly
when the model response itself satisfies it — the code requests the
invariant in the prompt but does not enforce it. -/
theorem claim2_goal_invariant_amended (g : UserGoal) (r : EvalResponse) :
    (evaluate_goal_alignment g (.ok r)).goal_achieved = r.goal_achieved.getD false
    ∧ (evaluate_goal_alignment g (.ok r)).alignment_score = r.alignment_score.getD 0
    ∧ (evaluate_goal_alignment g (.ok r)).criteria_met = r.criteria_met.getD []
    ∧ (evaluate_goal_alignment g (.ok r)).questions_answered =
        r.questions_answered.getD []
    ∧ (evaluate_goal_alignment g (.error ())).goal_achieved = false
    ∧ (evaluate_goal_alignment g (.error ())).alignment_score = 1/2
    ∧ ((r.goal_achieved.getD false = true →
          4/5 ≤ r.alignment_score.getD 0
          ∧ 4/5 ≤ spec_met_ratio (r.criteria_met.getD []) g.success_criteria
          ∧ 4/5 ≤ spec_met_ratio (r.questions_answered.getD []) g.specific_questions) →
        ((evaluate_goal_alignment g (.ok r)).goal_achieved = true →
          4/5 ≤ (evaluate_goal_alignment g (.ok r)).alignment_score
          ∧ 4/5 ≤ spec_met_ratio (evaluate_goal_alignment g (.ok r)).criteria_met
              g.success_criteria
          ∧ 4/5 ≤ spec_met_ratio (evaluate_goal_alignment g (.ok r)).questions_answered
              g.specific_questions)) := by
  refine ⟨rfl, rfl, rfl, rfl, rfl, rfl, ?_⟩
  intro h hach
  exact h hach

/-- Witness for the amended C2: a compliant response transfers the
invariant to the produced evaluation. -/
theorem claim2_goal_invariant_amended_witness :
    (evaluate_goal_alignment goalW (.ok goodEvalResp)).goal_achieved = true
    ∧ 4/5 ≤ (evaluate_goal_alignment goalW (.ok goodEvalResp)).alignment_score
    ∧ 4/5 ≤ spec_met_ratio
        (evaluate_goal_alignment goalW (.ok goodEvalResp)).criteria_met
        goalW.success_criteria
    ∧ 4/5 ≤ spec_met_ratio
        (evaluate_goal_alignment goalW (.ok goodEvalResp)).questions_answered
        goalW.specific_questions :=
  ⟨rfl,
   (claim2_goal_invariant_amended goalW goodEvalResp).2.2.2.2.2.2
     (fun _ => by
       refine ⟨?_, ?_, ?_⟩
       · norm_num [goodEvalResp]
       · norm_num [goodEvalResp, goalW, spec_met_ratio]
       · norm_num [goodEvalResp, goalW, spec_met_ratio]) rfl⟩

/-! ### Claim C5 -/

/-- Counterexample to claim C5: with a completion layer that always
fails, the planner does return exactly one query equal to the context,
but its `research_goal` is `"Comprehensive research on the topic"`, not
`"general"`; and when the layer succeeds with an empty `queries` array the
planner returns the empty list, not a one-element fallback. -/
theorem claim5_planner_fallback_counterexample :
    (generate_serp_queries "the topic" 3 none (fun _ => .error ())).map
        SerpQuery.research_goal = ["Comprehensive research on the topic"]
    ∧ "Comprehensive research on the topic" ≠ "general"
    ∧ generate_serp_queries "the topic" 3 none
        (fun _ => .ok { queries := some [] }) = [] := by
  refine ⟨rfl, by decide, rfl⟩

/-- Claim C5 as amended: whenever the structured-completion layer raises —
including when a malformed `queries` entry makes `SerpQuery(**q)` raise —
the planner returns exactly one `PlannedQuery` whose `query` equals the
input context and whose `research_goal` is
`"Comprehensive research on the topic"`; a successful response with an
empty (or absent) `queries` array instead yields the empty list. -/
theorem claim5_planner_fallback_amended (query : String) (n : Nat)
    (learnings : Option (List String)) (resp : SerpResponse) :
    (∀ complete : String → Except Unit SerpResponse,
      (∀ p, complete p = .error ()) →
        generate_serp_queries query n learnings complete =
          [{ query := query, research_goal := "Comprehensive research on the topic" }])
    ∧ (none ∈ resp.queries.getD [] →
        generate_serp_queries query n learnings (fun _ => .ok resp) =
          [{ query := query, research_goal := "Comprehensive research on the topic" }])
    ∧ (resp.queries.getD [] = [] →
        generate_serp_queries query n learnings (fun _ => .ok resp) = []) := by
  refine ⟨?_, ?_, ?_⟩
  · intro complete hc
    simp [generate_serp_queries, hc]
  · intro hnone
    have hall : (resp.queries.getD []).all Option.isSome = false := by
      rcases List.mem_iff_append.mp hnone with ⟨l1, l2, hsplit⟩
      rw [hsplit]
      simp
    simp [generate_serp_queries, hall]
  · intro hempty
    simp [generate_serp_queries, hempty]

/-- Witness for the amended C5: the always-failing layer, a malformed
entry, and the empty-array response, each at a concrete input. -/
theorem claim5_planner_fallback_amended_witness :
    ((fun _ : String => (.error () : Except Unit SerpResponse)) = fun _ => .error ())
    ∧ generate_serp_queries "ctx" 3 none (fun _ => .error ()) =
        [{ query := "ctx", research_goal := "Comprehensive research on the topic" }]
    ∧ none ∈ (SerpResponse.mk (some [none])).queries.getD []
    ∧ generate_serp_queries "ctx" 3 none (fun _ => .ok (SerpResponse.mk (some [none]))) =
        [{ query := "ctx", research_goal := "Comprehensive research on the topic" }]
    ∧ generate_serp_queries "ctx" 3 none (fun _ => .ok (SerpResponse.mk (some []))) = [] :=
  ⟨rfl,
   (claim5_planner_fallback_amended "ctx" 3 none (SerpResponse.mk (some [none]))).1
     _ (fun _ => rfl),
   by decide,
   (claim5_planner_fallback_amended "ctx" 3 none (SerpResponse.mk (some [none]))).2.1
     (by decide),
   (claim5_planner_fallback_amended "ctx" 3 none (SerpResponse.mk (some []))).2.2 rfl⟩

/-! ### Claims C6, C7, C10 (report writer) and C9 (planner recency) -/

/-- Every member of a joined list appears contiguously in the join. -/
theorem py_join_split (sep : String) :
    ∀ (l : List String) (x : String), x ∈ l →
      ∃ p q, py_join sep l = p ++ x ++ q := by
  intro l
  induction l with
  | nil => intro x hx; cases hx
  | cons s rest ih =>
    intro x hx
    cases rest with
    | nil =>
      rcases List.mem_cons.mp hx with rfl | h
      · exact ⟨"", "", by simp [py_join]⟩
      · cases h
    | cons r rs =>
      rcases List.mem_cons.mp hx with rfl | h
      · refine ⟨"", sep ++ py_join sep (r :: rs), ?_⟩
        show x ++ sep ++ py_join sep (r :: rs) = "" ++ x ++ (sep ++ py_join sep (r :: rs))
        simp [String.append_assoc]
      · obtain ⟨p, q, hpq⟩ := ih x h
        refine ⟨s ++ sep ++ p, q, ?_⟩
        show s ++ sep ++ py_join sep (r :: rs) = s ++ sep ++ p ++ x ++ q
        rw [hpq]
        simp [String.append_assoc]

/-- Claim C6: on every path, `write_final_report` returns non-empty text
ending in the `SOURCES` section, which lists every visited URL on its own
`- url` line; in particular each URL occurs in the returned text. -/
theorem claim6_report_sources (p : String) (learnings urls : List String)
    (completion : Except Unit ReportResponse) :
    (∃ body, write_final_report p learnings urls completion =
        body ++ sources_section urls)
    ∧ write_final_report p learnings urls completion ≠ ""
    ∧ sources_section urls =
        "\n\nSOURCES\n\n" ++ py_join "\n" (urls.map (fun u => "- " ++ u))
    ∧ (∀ u ∈ urls, ∃ pre post,
        write_final_report p learnings urls completion =
          pre ++ ("- " ++ u) ++ post) := by
  have hbody : ∃ body, write_final_report p learnings urls completion =
      body ++ sources_section urls := by
    cases completion with
    | ok r => exact ⟨report_from_response r, rfl⟩
    | error e => exact ⟨fallback_report p learnings urls, rfl⟩
  refine ⟨hbody, ?_, rfl, ?_⟩
  · obtain ⟨body, hb⟩ := hbody
    intro hemp
    have hlen : (write_final_report p learnings urls completion).length =
        body.length + (("\n\nSOURCES\n\n" : String).length
          + (py_join "\n" (urls.map (fun u => "- " ++ u))).length) := by
      rw [hb, sources_section, String.length_append, String.length_append]
    have h11 : ("\n\nSOURCES\n\n" : String).length = 11 := rfl
    rw [hemp] at hlen
    simp [h11] at hlen
    omega
  · intro u hu
    obtain ⟨body, hb⟩ := hbody
    have hmem : ("- " ++ u) ∈ urls.map (fun v => "- " ++ v) :=
      List.mem_map_of_mem _ hu
    obtain ⟨jp, jq, hj⟩ := py_join_split "\n" _ _ hmem
    refine ⟨body ++ "\n\nSOURCES\n\n" ++ jp, jq, ?_⟩
    rw [hb, sources_section, hj]
    simp [String.append_assoc]

/-- Witness for C6: the URL of a concrete report occurs in the returned
text (the theorem applied at a singleton URL list). -/
theorem claim6_report_sources_witness :
    "https://x.example/a" ∈ ["https://x.example/a"]
    ∧ (∃ pre post,
        write_final_report "topic" ["l"] ["https://x.example/a"] (.error ()) =
          pre ++ ("- " ++ "https://x.example/a") ++ post) :=
  ⟨by decide,
   (claim6_report_sources "topic" ["l"] ["https://x.example/a"] (.error ())).2.2.2
     "https://x.example/a" (by decide)⟩

/-- Counterexample to claim C7: with 41 learnings the fourth findings
section of the fallback report (`Additional Research Findings`) contains
all learnings from index 30 on — eleven of them, exceeding the claimed
chunk bound of 10. -/
theorem claim7_fallback_chunks_counterexample :
    write_final_report "topic" learnings41 [] (.error ()) =
        fallback_report "topic" learnings41 [] ++ sources_section []
    ∧ fallback_findings learnings41 =
        bullet_lines (learnings41.take 10)
          ++ ("\n\nStrategic Developments and Trends\n\n"
              ++ bullet_lines ((learnings41.drop 10).take 10))
          ++ ("\n\nImplementation and Practical Applications\n\n"
              ++ bullet_lines ((learnings41.drop 20).take 10))
          ++ ("\n\nAdditional Research Findings\n\n"
              ++ bullet_lines (learnings41.drop 30))
    ∧ (learnings41.drop 30).length = 11
    ∧ ¬ ((learnings41.drop 30).length ≤ 10) := by
  refine ⟨rfl, ?_, rfl, by decide⟩
  rw [fallback_findings, if_pos (by decide), if_pos (by decide), if_pos (by decide)]

/-- Claim C7 as amended: on completion failure the report is the
deterministic sectioned fallback built purely from the learnings and
URLs; its findings part groups the learnings into the sections
`learnings[0:10]`, `[10:20]`, `[20:30]` — each at most ten long — and a
final section holding *all* remaining learnings from index 30 on (which
may exceed ten); together the sections cover the whole input. -/
theorem claim7_fallback_structure (p : String) (learnings urls : List String) :
    write_final_report p learnings urls (.error ()) =
        fallback_report p learnings urls ++ sources_section urls
    ∧ fallback_findings learnings =
        bullet_lines (learnings.take 10)
          ++ (if 10 < learnings.length then
                "\n\nStrategic Developments and Trends\n\n"
                  ++ bullet_lines ((learnings.drop 10).take 10)
              else "")
          ++ (if 20 < learnings.length then
                "\n\nImplementation and Practical Applications\n\n"
                  ++ bullet_lines ((learnings.drop 20).take 10)
              else "")
          ++ (if 30 < learnings.length then
                "\n\nAdditional Research Findings\n\n"
                  ++ bullet_lines (learnings.drop 30)
              else "")
    ∧ (learnings.take 10).length ≤ 10
    ∧ ((learnings.drop 10).take 10).length ≤ 10
    ∧ ((learnings.drop 20).take 10).length ≤ 10
    ∧ learnings.take 10 ++ (learnings.drop 10).take 10
        ++ (learnings.drop 20).take 10 ++ learnings.drop 30 = learnings := by
  have hchunk : ∀ (k : Nat) (l : List String),
      (l.drop k).take 10 ++ l.drop (k + 10) = l.drop k := by
    intro k l
    have h := List.take_append_drop 10 (l.drop k)
    rwa [List.drop_drop] at h
  refine ⟨rfl, rfl, ?_, ?_, ?_, ?_⟩
  · rw [List.length_take]; exact min_le_left _ _
  · rw [List.length_take]; exact min_le_left _ _
  · rw [List.length_take]; exact min_le_left _ _
  · have h30 : (learnings.drop 20).take 10 ++ learnings.drop 30 = learnings.drop 20 :=
      hchunk 20 learnings
    have h20 : (learnings.drop 10).take 10 ++ learnings.drop 20 = learnings.drop 10 :=
      hchunk 10 learnings
    have h10 : learnings.take 10 ++ learnings.drop 10 = learnings :=
      List.take_append_drop 10 learnings
    calc learnings.take 10 ++ (learnings.drop 10).take 10
          ++ (learnings.drop 20).take 10 ++ learnings.drop 30
        = learnings.take 10 ++ ((learnings.drop 10).take 10
            ++ ((learnings.drop 20).take 10 ++ learnings.drop 30)) := by
          simp [List.append_assoc]
      _ = learnings := by rw [h30, h20, h10]

/-- Claim C10: when the completion succeeds but neither `reportText` nor
`reportMarkdown` is non-empty, the returned text is exactly the `SOURCES`
section (an empty body); the structured fallback report is produced only
on the exception path. -/
theorem claim10_empty_report_sources_only (p : String)
    (learnings urls : List String) (r : ReportResponse)
    (h1 : r.reportText.getD "" = "") (h2 : r.reportMarkdown.getD "" = "") :
    write_final_report p learnings urls (.ok r) = sources_section urls
    ∧ write_final_report p learnings urls (.ok r) = "" ++ sources_section urls
    ∧ write_final_report p learnings urls (.error ()) =
        fallback_report p learnings urls ++ sources_section urls := by
  have hb : report_from_response r = "" := by
    rw [report_from_response]
    simp [h1, h2]
  have hmain : write_final_report p learnings urls (.ok r) = sources_section urls := by
    show report_from_response r ++ sources_section urls = sources_section urls
    rw [hb]
    rfl
  exact ⟨hmain, hmain.trans rfl, rfl⟩

/-- Witness for C10: a successful completion carrying an empty
`reportText` and no `reportMarkdown` yields only the sources section. -/
theorem claim10_empty_report_sources_only_witness :
    (ReportResponse.mk (some "") none).reportText.getD "" = ""
    ∧ (ReportResponse.mk (some "") none).reportMarkdown.getD "" = ""
    ∧ write_final_report "topic" ["l"] ["u1", "u2"]
        (.ok (ReportResponse.mk (some "") none)) = sources_section ["u1", "u2"] :=
  ⟨rfl, rfl,
   (claim10_empty_report_sources_only "topic" ["l"] ["u1", "u2"]
     (ReportResponse.mk (some "") none) rfl rfl).1⟩

/-- Dropping to the last ten and then to the last five is the same as
dropping to the last five directly. -/
theorem takeLast_five_of_ten {α : Type} (l : List α) :
    takeLast 5 (takeLast 10 l) = takeLast 5 l := by
  unfold takeLast
  rw [List.length_drop, List.drop_drop]
  congr 1
  omega

/-- Claim C9: the planner joins only the last five entries of its
learnings argument into the prompt, so two learnings lists agreeing on
their last five produce identical planner behaviour, and the ten most
recent learnings passed by the controller influence the planner exactly
as much as the full list — entries older than the most recent five never
influence query generation. -/
theorem claim9_last_five_learnings (q : String) (n : Nat) (l1 l2 : List String)
    (complete : String → Except Unit SerpResponse) :
    serp_recent_learnings (some l1) =
        (if l1.isEmpty then none else some (py_join " " (takeLast 5 l1)))
    ∧ (l1.isEmpty = false → l2.isEmpty = false → takeLast 5 l1 = takeLast 5 l2 →
        generate_serp_queries q n (some l1) complete =
          generate_serp_queries q n (some l2) complete)
    ∧ takeLast 5 (takeLast 10 l1) = takeLast 5 l1
    ∧ (l1.isEmpty = false →
        generate_serp_queries q n (some (takeLast 10 l1)) complete =
          generate_serp_queries q n (some l1) complete) := by
  have hinv : ∀ la lb : List String, la.isEmpty = false → lb.isEmpty = false →
      takeLast 5 la = takeLast 5 lb →
      generate_serp_queries q n (some la) complete =
        generate_serp_queries q n (some lb) complete := by
    intro la lb ha hb hlast
    have hrec : serp_recent_learnings (some la) = serp_recent_learnings (some lb) := by
      simp [serp_recent_learnings, ha, hb, hlast]
    simp only [generate_serp_queries]
    rw [hrec]
  have hnonempty : ∀ l : List String, 0 < l.length → l.isEmpty = false := by
    intro l hl
    cases l with
    | nil => simp at hl
    | cons a as => rfl
  refine ⟨rfl, hinv l1 l2, takeLast_five_of_ten l1, ?_⟩
  intro h1
  have h0 : 0 < l1.length := by
    cases l1 with
    | nil => simp [List.isEmpty] at h1
    | cons a as => simp
  have hlen : 0 < (takeLast 10 l1).length := by
    unfold takeLast
    rw [List.length_drop]
    omega
  exact hinv (takeLast 10 l1) l1 (hnonempty _ hlen) h1 (takeLast_five_of_ten l1)

/-- Witness for C9: two concrete lists sharing their last five entries
drive the planner identically, and the ten-entry suffix behaves like the
full list. -/
theorem claim9_last_five_learnings_witness :
    (["a", "b", "c", "d", "e", "f"] : List String).isEmpty = false
    ∧ (["zzz", "b", "c", "d", "e", "f"] : List String).isEmpty = false
    ∧ takeLast 5 (["a", "b", "c", "d", "e", "f"] : List String) =
        takeLast 5 (["zzz", "b", "c", "d", "e", "f"] : List String)
    ∧ generate_serp_queries "ctx" 3 (some ["a", "b", "c", "d", "e", "f"])
        (fun _ => .error ()) =
      generate_serp_queries "ctx" 3 (some ["zzz", "b", "c", "d", "e", "f"])
        (fun _ => .error ()) :=
  ⟨rfl, rfl, by decide,
   (claim9_last_five_learnings "ctx" 3 ["a", "b", "c", "d", "e", "f"]
       ["zzz", "b", "c", "d", "e", "f"] (fun _ => .error ())).2.1
     rfl rfl (by decide)⟩

/-! ### Claim C8 — helper lemmas on scanning primitives -/

/-- Once `dropWhile` stops at a character inside `l`, appending more input
does not change the consumed prefix. -/
theorem dropWhile_append_cons {p : Char → Bool} {l : List Char} {c : Char}
    {r : List Char} (h : l.dropWhile p = c :: r) (ys : List Char) :
    (l ++ ys).dropWhile p = c :: (r ++ ys) := by
  induction l with
  | nil => simp at h
  | cons a as ih =>
    by_cases hp : p a
    · rw [List.dropWhile_cons_of_pos hp] at h
      rw [List.cons_append, List.dropWhile_cons_of_pos hp]
      exact ih h
    · rw [List.dropWhile_cons_of_neg hp] at h
      rw [List.cons_append, List.dropWhile_cons_of_neg hp]
      cases h
      rfl

/-- When `dropWhile` consumes all of `l`, on appended input it continues
into the suffix. -/
theorem dropWhile_append_nil {p : Char → Bool} {l : List Char}
    (h : l.dropWhile p = []) (ys : List Char) :
    (l ++ ys).dropWhile p = ys.dropWhile p := by
  induction l with
  | nil => simp
  | cons a as ih =>
    by_cases hp : p a
    · rw [List.dropWhile_cons_of_pos hp] at h
      rw [List.cons_append, List.dropWhile_cons_of_pos hp]
      exact ih h
    · rw [List.dropWhile_cons_of_neg hp] at h
      cases h

/-- Once `dropWhile` stops inside `l`, `takeWhile` on appended input also
stops there. -/
theorem takeWhile_append_cons {p : Char → Bool} {l : List Char} {c : Char}
    {r : List Char} (h : l.dropWhile p = c :: r) (ys : List Char) :
    (l ++ ys).takeWhile p = l.takeWhile p := by
  induction l with
  | nil => simp at h
  | cons a as ih =>
    by_cases hp : p a
    · rw [List.dropWhile_cons_of_pos hp] at h
      rw [List.cons_append, List.takeWhile_cons_of_pos hp,
        List.takeWhile_cons_of_pos hp, ih h]
    · rw [List.cons_append, List.takeWhile_cons_of_neg hp,
        List.takeWhile_cons_of_neg hp]

/-- A literal matches its own prefix. -/
theorem litTok_self_append (pat r : List Char) :
    litTok pat (pat ++ r) = some r := by
  induction pat with
  | nil => rfl
  | cons p ps ih =>
    rw [List.cons_append]
    show (if p = p then litTok ps (ps ++ r) else none) = some r
    rw [if_pos rfl]
    exact ih

/-- A successful literal match is stable under appending input. -/
theorem litTok_append {pat l r : List Char} (h : litTok pat l = some r)
    (ys : List Char) : litTok pat (l ++ ys) = some (r ++ ys) := by
  induction pat generalizing l with
  | nil =>
    cases h
    rfl
  | cons p ps ih =>
    cases l with
    | nil => cases h
    | cons c cs =>
      by_cases hc : c = p
      · subst hc
        rw [show litTok (c :: ps) (c :: cs) = litTok ps cs from by
              simp [litTok]] at h
        rw [List.cons_append]
        show (if c = c then litTok ps (cs ++ ys) else none) = some (r ++ ys)
        rw [if_pos rfl]
        exact ih h
      · rw [show litTok (p :: ps) (c :: cs) = none from by simp [litTok, hc]] at h
        cases h

/-- A literal match fails when the first characters differ. -/
theorem litTok_head_ne {p c : Char} (ps cs : List Char) (h : c ≠ p) :
    litTok (p :: ps) (c :: cs) = none := by
  simp [litTok, h]


/-- A successful string-body (or escape) parse is stable under appending
further input: the scan stops at the closing quote it already found. -/
theorem parseStringBody_parseEscape_append :
    ∀ (n : Nat) (l : List Char), l.length ≤ n →
      (∀ cont r : List Char, parseStringBody l = some (cont, r) →
        ∀ ys, parseStringBody (l ++ ys) = some (cont, r ++ ys))
      ∧ (∀ cont r : List Char, parseEscape l = some (cont, r) →
        ∀ ys, parseEscape (l ++ ys) = some (cont, r ++ ys)) := by
  intro n
  induction n with
  | zero =>
    intro l hl
    have hnil : l = [] := List.length_eq_zero.mp (Nat.le_zero.mp hl)
    subst hnil
    constructor
    · intro cont r h; cases h
    · intro cont r h; cases h
  | succ n ih =>
    intro l hl
    constructor
    · intro cont r h ys
      cases l with
      | nil => cases h
      | cons c rest =>
        have hrest : rest.length ≤ n := by simp at hl; omega
        rw [parseStringBody] at h
        rw [List.cons_append, parseStringBody]
        by_cases hq : c = '"'
        · rw [if_pos hq] at h
          cases h
          rw [if_pos hq]
        · rw [if_neg hq] at h
          rw [if_neg hq]
          by_cases hb : c = '\\'
          · rw [if_pos hb] at h
            rw [if_pos hb]
            exact (ih rest hrest).2 cont r h ys
          · rw [if_neg hb] at h
            rw [if_neg hb]
            cases hrec : parseStringBody rest with
            | none => rw [hrec] at h; cases h
            | some p =>
              rw [hrec] at h
              cases h
              rw [(ih rest hrest).1 p.1 p.2 (by rw [hrec]) ys]
              rfl
    · intro cont r h ys
      cases l with
      | nil => cases h
      | cons e rest =>
        have hrest : rest.length ≤ n := by simp at hl; omega
        rw [parseEscape] at h
        rw [List.cons_append, parseEscape]
        by_cases hu : e = 'u'
        · rw [if_pos hu] at h
          rw [if_pos hu]
          rcases rest with _ | ⟨a, _ | ⟨b, _ | ⟨c2, _ | ⟨d, rest4⟩⟩⟩⟩
          · cases h
          · cases h
          · cases h
          · cases h
          · have h4 : rest4.length ≤ n := by simp at hrest; omega
            simp only [List.cons_append]
            rw [parseU] at h
            rw [parseU]
            cases hha : hexVal a with
            | none => (try rw [hha] at h); cases h
            | some ha2 =>
              (try rw [hha] at h)
              cases hhb : hexVal b with
              | none => (try rw [hhb] at h); cases h
              | some hb2 =>
                (try rw [hhb] at h)
                cases hhc : hexVal c2 with
                | none => (try rw [hhc] at h); cases h
                | some hc2 =>
                  (try rw [hhc] at h)
                  cases hhd : hexVal d with
                  | none => (try rw [hhd] at h); cases h
                  | some hd2 =>
                    (try rw [hhd] at h)
                    cases hrec : parseStringBody rest4 with
                    | none => rw [hrec] at h; cases h
                    | some p =>
                      rw [hrec] at h
                      cases h
                      rw [(ih rest4 h4).1 p.1 p.2 (by rw [hrec]) ys]
                      rfl
        · rw [if_neg hu] at h
          rw [if_neg hu]
          cases hesc : escChar e with
          | none => (try rw [hesc] at h); cases h
          | some ce =>
            (try rw [hesc] at h)
            cases hrec : parseStringBody rest with
            | none => rw [hrec] at h; cases h
            | some p =>
              rw [hrec] at h
              cases h
              rw [(ih rest hrest).1 p.1 p.2 (by rw [hrec]) ys]
              rfl

/-- Whitespace skipping that stops inside `l` is stable under appending. -/
theorem skipJsonWs_append_cons {l : List Char} {c : Char} {r : List Char}
    (h : skipJsonWs l = c :: r) (ys : List Char) :
    skipJsonWs (l ++ ys) = c :: (r ++ ys) :=
  dropWhile_append_cons h ys

/-- Whitespace skipping that consumes all of `l` continues into the
appended input. -/
theorem skipJsonWs_append_nil {l : List Char} (h : skipJsonWs l = [])
    (ys : List Char) : skipJsonWs (l ++ ys) = skipJsonWs ys :=
  dropWhile_append_nil h ys

/-- Combined monotonicity-and-append lemma for the JSON parser: a parse
that succeeded on `l` succeeds with any larger fuel on `l ++ ys`, consuming
the same prefix, provided the parse did not stop exactly at the end of the
input while reading a number (numbers are the only values read by maximal
munch; every other value ends at a definite terminator). -/
theorem parse_append_mono :
    ∀ fuel : Nat,
      (∀ fuel2 l v r ys, fuel ≤ fuel2 → parseVal fuel l = some (v, r) →
        (r ≠ [] ∨ jclosed v = true) → parseVal fuel2 (l ++ ys) = some (v, r ++ ys))
      ∧ (∀ fuel2 l acc v r ys, fuel ≤ fuel2 → parseMembers fuel l acc = some (v, r) →
          parseMembers fuel2 (l ++ ys) acc = some (v, r ++ ys))
      ∧ (∀ fuel2 l acc v r ys, fuel ≤ fuel2 → parseElems fuel l acc = some (v, r) →
          parseElems fuel2 (l ++ ys) acc = some (v, r ++ ys)) := by
  intro fuel
  induction fuel with
  | zero =>
    refine ⟨?_, ?_, ?_⟩
    · intro fuel2 l v r ys _ h; cases h
    · intro fuel2 l acc v r ys _ h; cases h
    · intro fuel2 l acc v r ys _ h; cases h
  | succ fuel ih =>
    obtain ⟨ihv, ihm, ihe⟩ := ih
    refine ⟨?_, ?_, ?_⟩
    · intro fuel2 l v r ys hle h hside
      cases fuel2 with
      | zero => omega
      | succ fuel2 =>
        have hle2 : fuel ≤ fuel2 := by omega
        rw [parseVal] at h
        split at h
        · cases h
        · next c rest heq =>
          simp only [parseVal, skipJsonWs_append_cons heq ys]
          by_cases hc1 : c = lbrace
          · rw [if_pos hc1] at h
            rw [if_pos hc1]
            cases hh : skipJsonWs rest with
            | nil => simp only [hh, List.head?_nil] at h; cases h
            | cons c2 t =>
              simp only [hh, List.head?_cons, List.tail_cons] at h
              simp only [skipJsonWs_append_cons hh ys, List.head?_cons, List.tail_cons]
              by_cases hc2 : c2 = rbrace
              · rw [if_pos hc2] at h
                rw [if_pos hc2]
                cases h
                rfl
              · rw [if_neg hc2] at h
                rw [if_neg hc2]
                exact ihm fuel2 rest [] v r ys hle2 h
          · rw [if_neg hc1] at h
            rw [if_neg hc1]
            by_cases hc2 : c = '['
            · rw [if_pos hc2] at h
              rw [if_pos hc2]
              cases hh : skipJsonWs rest with
              | nil => simp only [hh, List.head?_nil] at h; cases h
              | cons c2 t =>
                simp only [hh, List.head?_cons, List.tail_cons] at h
                simp only [skipJsonWs_append_cons hh ys, List.head?_cons, List.tail_cons]
                by_cases hc3 : c2 = ']'
                · rw [if_pos hc3] at h
                  rw [if_pos hc3]
                  cases h
                  rfl
                · rw [if_neg hc3] at h
                  rw [if_neg hc3]
                  exact ihe fuel2 rest [] v r ys hle2 h
            · rw [if_neg hc2] at h
              rw [if_neg hc2]
              by_cases hc3 : c = '"'
              · rw [if_pos hc3] at h
                rw [if_pos hc3]
                cases hsb : parseStringBody rest with
                | none => rw [hsb] at h; cases h
                | some p =>
                  obtain ⟨content, r0⟩ := p
                  rw [hsb] at h
                  rw [(parseStringBody_parseEscape_append rest.length rest
                    (Nat.le_refl _)).1 content r0 hsb ys]
                  cases h
                  rfl
              · rw [if_neg hc3] at h
                rw [if_neg hc3]
                by_cases hc4 : c = 't'
                · rw [if_pos hc4] at h
                  rw [if_pos hc4]
                  cases hlit : litTok ['r', 'u', 'e'] rest with
                  | none => rw [hlit] at h; cases h
                  | some r0 =>
                    rw [hlit] at h
                    cases h
                    rw [litTok_append hlit ys]
                · rw [if_neg hc4] at h
                  rw [if_neg hc4]
                  by_cases hc5 : c = 'f'
                  · rw [if_pos hc5] at h
                    rw [if_pos hc5]
                    cases hlit : litTok ['a', 'l', 's', 'e'] rest with
                    | none => rw [hlit] at h; cases h
                    | some r0 =>
                      rw [hlit] at h
                      cases h
                      rw [litTok_append hlit ys]
                  · rw [if_neg hc5] at h
                    rw [if_neg hc5]
                    by_cases hc6 : c = 'n'
                    · rw [if_pos hc6] at h
                      rw [if_pos hc6]
                      cases hlit : litTok ['u', 'l', 'l'] rest with
                      | none => rw [hlit] at h; cases h
                      | some r0 =>
                        rw [hlit] at h
                        cases h
                        rw [litTok_append hlit ys]
                    · rw [if_neg hc6] at h
                      rw [if_neg hc6]
                      by_cases hc7 : isNumStart c = true
                      · rw [if_pos hc7] at h
                        rw [if_pos hc7]
                        cases hnv : numValue ((c :: rest).takeWhile isNumChar) with
                        | none => rw [hnv] at h; cases h
                        | some q =>
                          rw [hnv] at h
                          cases h
                          have hrne : (c :: rest).dropWhile isNumChar ≠ [] := by
                            rcases hside with hne | hcl
                            · exact hne
                            · simp [jclosed] at hcl
                          cases hdw : (c :: rest).dropWhile isNumChar with
                          | nil => exact absurd hdw hrne
                          | cons d dr =>
                            rw [← List.cons_append,
                              takeWhile_append_cons hdw ys, hnv,
                              dropWhile_append_cons hdw ys]
                            rfl
                      · rw [if_neg hc7] at h
                        cases h
    · intro fuel2 l acc v r ys hle h
      cases fuel2 with
      | zero => omega
      | succ fuel2 =>
        have hle2 : fuel ≤ fuel2 := by omega
        rw [parseMembers] at h
        split at h
        · cases h
        · next c rest heq =>
          simp only [parseMembers, skipJsonWs_append_cons heq ys]
          by_cases hq : c = '"'
          · rw [if_pos hq] at h
            rw [if_pos hq]
            split at h
            · cases h
            · next key r1 heq2 =>
              simp only [(parseStringBody_parseEscape_append rest.length rest
                (Nat.le_refl _)).1 key r1 heq2 ys]
              split at h
              · cases h
              · next c3 r2 heq3 =>
                simp only [skipJsonWs_append_cons heq3 ys]
                by_cases hc3 : c3 = ':'
                · rw [if_pos hc3] at h
                  rw [if_pos hc3]
                  split at h
                  · cases h
                  · next v0 r3 hpv =>
                    split at h
                    · cases h
                    · next c4 r4 heq4 =>
                      have hr3ne : r3 ≠ [] := by
                        intro hnil
                        rw [hnil] at heq4
                        cases heq4
                      simp only [ihv fuel2 r2 v0 r3 ys hle2 hpv (Or.inl hr3ne),
                        skipJsonWs_append_cons heq4 ys]
                      by_cases hc4 : c4 = ','
                      · rw [if_pos hc4] at h
                        rw [if_pos hc4]
                        exact ihm fuel2 r4 (acc ++ [(String.mk key, v0)]) v r ys hle2 h
                      · rw [if_neg hc4] at h
                        rw [if_neg hc4]
                        by_cases hc5 : c4 = rbrace
                        · rw [if_pos hc5] at h
                          rw [if_pos hc5]
                          cases h
                          rfl
                        · rw [if_neg hc5] at h
                          cases h
                · rw [if_neg hc3] at h
                  cases h
          · rw [if_neg hq] at h
            cases h
    · intro fuel2 l acc v r ys hle h
      cases fuel2 with
      | zero => omega
      | succ fuel2 =>
        have hle2 : fuel ≤ fuel2 := by omega
        rw [parseElems] at h
        rw [parseElems]
        split at h
        · cases h
        · next v0 r1 hpv =>
          split at h
          · cases h
          · next c2 r2 heq2 =>
            have hr1ne : r1 ≠ [] := by
              intro hnil
              rw [hnil] at heq2
              cases heq2
            simp only [ihv fuel2 l v0 r1 ys hle2 hpv (Or.inl hr1ne),
              skipJsonWs_append_cons heq2 ys]
            by_cases hc2 : c2 = ','
            · rw [if_pos hc2] at h
              rw [if_pos hc2]
              exact ihe fuel2 r2 (acc ++ [v0]) v r ys hle2 h
            · rw [if_neg hc2] at h
              rw [if_neg hc2]
              by_cases hc3 : c2 = ']'
              · rw [if_pos hc3] at h
                rw [if_pos hc3]
                cases h
                rfl
              · rw [if_neg hc3] at h
                cases h

/-- A parsed top-level JSON object followed by textual junk (anything with
a non-whitespace character) no longer parses: `json.loads` reports extra
data. -/
theorem json_loads_append_junk {xs : List Char} {fs : List (String × JVal)}
    (hJ : json_loadsL xs = some (.jobj fs)) {ys : List Char}
    (hys : skipJsonWs ys ≠ []) : json_loadsL (xs ++ ys) = none := by
  rw [json_loadsL] at hJ
  split at hJ
  · next v rest heq =>
    split at hJ
    · next hws =>
      cases hJ
      have hle : 2 * xs.length + 2 ≤ 2 * (xs ++ ys).length + 2 := by
        rw [List.length_append]; omega
      have happ := (parse_append_mono (2 * xs.length + 2)).1
        (2 * (xs ++ ys).length + 2) xs (.jobj fs) rest ys hle heq (Or.inr rfl)
      simp only [json_loadsL, happ, skipJsonWs_append_nil hws ys]
      rw [if_neg hys]
    · cases hJ
  · cases hJ

/-- The parser rejects input whose first character is a backtick. -/
theorem parseVal_backtick (fuel : Nat) (r : List Char) :
    parseVal fuel (backtickC :: r) = none := by
  cases fuel with
  | zero => rw [parseVal]
  | succ fuel =>
    have hws : skipJsonWs (backtickC :: r) = backtickC :: r := by
      rw [skipJsonWs, List.dropWhile_cons_of_neg (by decide)]
    simp only [parseVal, hws]
    rw [if_neg (by decide), if_neg (by decide), if_neg (by decide),
      if_neg (by decide), if_neg (by decide), if_neg (by decide),
      if_neg (by decide)]

/-- `json.loads` rejects text starting with a backtick. -/
theorem json_loadsL_backtick (r : List Char) :
    json_loadsL (backtickC :: r) = none := by
  rw [json_loadsL, parseVal_backtick]

/-- If a list holds a character violating `p`, `dropWhile p` stops at some
such position inside the list. -/
theorem exists_nonws_dropWhile {p : Char → Bool} :
    ∀ {l : List Char}, (∃ c ∈ l, p c = false) →
      ∃ c cs, l.dropWhile p = c :: cs ∧ c ∈ l ∧ p c = false := by
  intro l
  induction l with
  | nil => rintro ⟨c, hc, _⟩; cases hc
  | cons a as ih =>
    rintro ⟨c, hc, hpc⟩
    by_cases hpa : p a
    · rw [List.dropWhile_cons_of_pos hpa]
      have hcas : c ∈ as := by
        rcases List.mem_cons.mp hc with rfl | h
        · rw [hpa] at hpc; cases hpc
        · exact h
      obtain ⟨d, ds, hdw, hdm, hpd⟩ := ih ⟨c, hcas, hpc⟩
      exact ⟨d, ds, hdw, List.mem_cons_of_mem _ hdm, hpd⟩
    · rw [List.dropWhile_cons_of_neg hpa]
      exact ⟨a, as, rfl, List.mem_cons_self _ _,
        Bool.eq_false_iff.mpr hpa⟩

/-- Right-stripping a concatenation whose tail holds a non-whitespace
character only strips inside the tail. -/
theorem rstripL_append_of_nonws {t : List Char}
    (h : ∃ c ∈ t, isPyWs c = false) (A : List Char) :
    rstripL (A ++ t) = A ++ rstripL t := by
  have hrev : ∃ c ∈ t.reverse, isPyWs c = false := by
    obtain ⟨c, hc, hp⟩ := h
    exact ⟨c, by simpa using hc, hp⟩
  obtain ⟨c, cs, hdw, hcm, hpc⟩ := exists_nonws_dropWhile hrev
  unfold rstripL
  rw [List.reverse_append, dropWhile_append_cons hdw, hdw]
  simp

/-- The right strip of a list with a non-whitespace character is non-empty
and ends (once reversed, begins) with a non-whitespace character of the
original list. -/
theorem rstripL_reverse_head {t : List Char}
    (h : ∃ c ∈ t, isPyWs c = false) :
    ∃ c cs, (rstripL t).reverse = c :: cs ∧ c ∈ t ∧ isPyWs c = false := by
  have hrev : ∃ c ∈ t.reverse, isPyWs c = false := by
    obtain ⟨c, hc, hp⟩ := h
    exact ⟨c, by simpa using hc, hp⟩
  obtain ⟨c, cs, hdw, hcm, hpc⟩ := exists_nonws_dropWhile hrev
  refine ⟨c, cs, ?_, by simpa using hcm, hpc⟩
  rw [rstripL, List.reverse_reverse, hdw]

/-- The lazy group scan of strategy 3: walking a backtick-free `mid`, every
interior closing brace fails the fence check (the character after it, once
whitespace is skipped, lies in `mid` or is the final brace, never a
backtick), so the scan stops exactly at the closing brace that is followed
by the fence. -/
theorem findCloseLazy_spec :
    ∀ (mid acc rest : List Char), backtickC ∉ mid →
      (litTok fence3 (rest.dropWhile isPyWs)).isSome = true →
      findCloseLazy acc (mid ++ rbrace :: rest) =
        some (acc.reverse ++ mid ++ [rbrace]) := by
  intro mid
  induction mid with
  | nil =>
    intro acc rest _ hfence
    show findCloseLazy acc (rbrace :: rest) = _
    rw [findCloseLazy, if_pos ⟨rfl, hfence⟩]
    simp
  | cons m ms ih =>
    intro acc rest hbt hfence
    have hbt' : backtickC ∉ ms := fun hm => hbt (List.mem_cons_of_mem _ hm)
    have hmne : m ≠ backtickC := fun he => hbt (he ▸ List.mem_cons_self _ _)
    show findCloseLazy acc (m :: (ms ++ rbrace :: rest)) = _
    rw [findCloseLazy]
    have hnofence :
        (litTok fence3 ((ms ++ rbrace :: rest).dropWhile isPyWs)).isSome = false := by
      have hassoc : ms ++ rbrace :: rest = (ms ++ [rbrace]) ++ rest := by simp
      have hrb : ∃ c ∈ ms ++ [rbrace], isPyWs c = false :=
        ⟨rbrace, by simp, by decide⟩
      obtain ⟨c, cs, hdw, hcm, hpc⟩ := exists_nonws_dropWhile hrb
      have hcne : c ≠ backtickC := by
        rcases List.mem_append.mp hcm with hin | hin
        · exact fun he => hbt' (he ▸ hin)
        · rcases List.mem_singleton.mp hin with rfl
          decide
      rw [hassoc, dropWhile_append_cons hdw]
      rw [show litTok fence3 (c :: (cs ++ rest)) = none from by
        show (if c = backtickC then litTok [backtickC, backtickC] (cs ++ rest)
          else none) = none
        rw [if_neg hcne]]
      rfl
    rw [if_neg (fun hand => by rw [hnofence] at hand; exact Bool.false_ne_true hand.2)]
    rw [ih (m :: acc) rest hbt' hfence]
    simp

theorem json_loadsL_fence_prefix (r : List Char) :
    json_loadsL (fenceJson ++ r) = none := by
  rw [show fenceJson ++ r =
    backtickC :: ([backtickC, backtickC, 'j', 's', 'o', 'n'] ++ r) from rfl]
  exact json_loadsL_backtick _

theorem clean_json_fenced_none (mid t : List Char) (fields : List (String × JVal))
    (h1 : json_loadsL (lbrace :: mid ++ [rbrace]) = some (.jobj fields))
    (h3 : backtickC ∉ t)
    (h4 : t.any (fun c => !(isPyWs c)) = true) :
    json_loadsL (clean_json_stringL
      (fenceJson ++ '\n' :: (lbrace :: mid ++ [rbrace])
        ++ '\n' :: fence3 ++ '\n' :: t)) = none := by
  have hnonws : ∃ c ∈ t, isPyWs c = false := by
    obtain ⟨c, hc, hp⟩ := List.any_eq_true.mp h4
    exact ⟨c, hc, by simpa using hp⟩
  obtain ⟨c0, cs0, ht0, hc0mem, hc0ws⟩ := rstripL_reverse_head hnonws
  have hc0bt : c0 ≠ backtickC := fun he => h3 (he ▸ hc0mem)
  -- stage 1: strip only removes trailing whitespace of t
  have hstrip : stripL (fenceJson ++ '\n' :: (lbrace :: mid ++ [rbrace])
      ++ '\n' :: fence3 ++ '\n' :: t) =
      fenceJson ++ ('\n' :: (lbrace :: mid ++ [rbrace])
        ++ '\n' :: fence3 ++ '\n' :: rstripL t) := by
    rw [stripL]
    rw [show (fenceJson ++ '\n' :: (lbrace :: mid ++ [rbrace])
        ++ '\n' :: fence3 ++ '\n' :: t).dropWhile isPyWs =
        fenceJson ++ '\n' :: (lbrace :: mid ++ [rbrace])
          ++ '\n' :: fence3 ++ '\n' :: t from by
      rw [show fenceJson ++ '\n' :: (lbrace :: mid ++ [rbrace])
          ++ '\n' :: fence3 ++ '\n' :: t =
          backtickC :: ([backtickC, backtickC, 'j', 's', 'o', 'n']
            ++ '\n' :: (lbrace :: mid ++ [rbrace])
            ++ '\n' :: fence3 ++ '\n' :: t) from rfl]
      exact List.dropWhile_cons_of_neg (by decide)]
    rw [show fenceJson ++ '\n' :: (lbrace :: mid ++ [rbrace])
        ++ '\n' :: fence3 ++ '\n' :: t =
        (fenceJson ++ '\n' :: (lbrace :: mid ++ [rbrace])
          ++ '\n' :: fence3 ++ ['\n']) ++ t from by simp]
    rw [rstripL_append_of_nonws hnonws]
    simp
  have hlit := litTok_self_append fenceJson
    ('\n' :: (lbrace :: mid ++ [rbrace]) ++ '\n' :: fence3 ++ '\n' :: rstripL t)
  simp only [clean_json_stringL]
  rw [hstrip, hlit]
  simp only [Option.isSome_some, Option.getD_some, eq_self_iff_true, if_true]
  rw [show ('\n' :: (lbrace :: mid ++ [rbrace]) ++ '\n' :: fence3
      ++ '\n' :: rstripL t) =
      '\n' :: lbrace :: (mid ++ rbrace :: ('\n' :: fence3 ++ '\n' :: rstripL t))
      from by simp]
  rw [List.dropWhile_cons_of_pos (by decide),
    List.dropWhile_cons_of_neg (by decide)]
  have hrev : (lbrace :: (mid ++ rbrace :: ('\n' :: fence3 ++ '\n' :: rstripL t))).reverse
      = c0 :: (cs0 ++ '\n' :: (fence3.reverse ++ '\n' :: rbrace ::
          (mid.reverse ++ [lbrace]))) := by
    simp [ht0]
  have hfenceno : litTok fence3 (c0 :: (cs0 ++ '\n' :: (fence3.reverse ++ '\n' :: rbrace ::
      (mid.reverse ++ [lbrace])))) = none := by
    show (if c0 = backtickC then litTok [backtickC, backtickC] _ else none) = none
    rw [if_neg hc0bt]
  rw [hrev, hfenceno]
  simp only [Option.isSome_none]
  rw [if_neg Bool.false_ne_true]
  rw [hrev]
  have hXws : skipJsonWs ('\n' :: fence3 ++ '\n' :: rstripL t) =
      backtickC :: ([backtickC, backtickC] ++ '\n' :: rstripL t) := by
    rw [show ('\n' :: fence3 ++ '\n' :: rstripL t) =
      '\n' :: (fence3 ++ '\n' :: rstripL t) from by simp]
    rw [skipJsonWs, List.dropWhile_cons_of_pos (by decide)]
    rw [show fence3 ++ '\n' :: rstripL t =
      backtickC :: ([backtickC, backtickC] ++ '\n' :: rstripL t) from rfl]
    exact List.dropWhile_cons_of_neg (by decide)
  have hsplitJ : lbrace :: (mid ++ rbrace :: ('\n' :: fence3 ++ '\n' :: rstripL t)) =
      (lbrace :: mid ++ [rbrace]) ++ ('\n' :: fence3 ++ '\n' :: rstripL t) := by
    simp
  have hlitrb : litTok [rbrace] (c0 :: (cs0 ++ '\n' :: (fence3.reverse ++ '\n' :: rbrace ::
      (mid.reverse ++ [lbrace])))) =
      (if c0 = rbrace then some (cs0 ++ '\n' :: (fence3.reverse ++ '\n' :: rbrace ::
        (mid.reverse ++ [lbrace]))) else none) := rfl
  rw [hlitrb]
  by_cases hc0r : c0 = rbrace
  · rw [if_pos hc0r]
    simp only [Option.isSome_some]
    rw [if_pos trivial, hsplitJ]
    exact json_loads_append_junk h1 (by rw [hXws]; exact List.cons_ne_nil _ _)
  · rw [if_neg hc0r]
    simp only [Option.isSome_none]
    rw [if_neg Bool.false_ne_true, hsplitJ, List.append_assoc]
    refine json_loads_append_junk h1 ?_
    rw [skipJsonWs_append_cons hXws]
    exact List.cons_ne_nil _ _

theorem tryFenceAt_fenced (mid t : List Char)
    (h2 : backtickC ∉ mid) :
    tryFenceAt (fenceJson ++ '\n' :: (lbrace :: mid ++ [rbrace])
        ++ '\n' :: fence3 ++ '\n' :: t) =
      some (lbrace :: mid ++ [rbrace]) := by
  have hlit := litTok_self_append fenceJson
    ('\n' :: (lbrace :: mid ++ [rbrace]) ++ '\n' :: fence3 ++ '\n' :: t)
  have hdw : ('\n' :: (lbrace :: mid ++ [rbrace])
      ++ '\n' :: fence3 ++ '\n' :: t).dropWhile isPyWs
      = lbrace :: (mid ++ rbrace :: ('\n' :: fence3 ++ '\n' :: t)) := by
    rw [show ('\n' :: (lbrace :: mid ++ [rbrace]) ++ '\n' :: fence3 ++ '\n' :: t)
        = '\n' :: lbrace :: (mid ++ rbrace :: ('\n' :: fence3 ++ '\n' :: t))
        from by simp]
    rw [List.dropWhile_cons_of_pos (by decide),
      List.dropWhile_cons_of_neg (by decide)]
  have hfence : (litTok fence3
      (('\n' :: fence3 ++ '\n' :: t).dropWhile isPyWs)).isSome = true := by
    rw [show ('\n' :: fence3 ++ '\n' :: t).dropWhile isPyWs
        = fence3 ++ '\n' :: t from by
      rw [show ('\n' :: fence3 ++ '\n' :: t)
          = '\n' :: (fence3 ++ '\n' :: t) from by simp]
      rw [List.dropWhile_cons_of_pos (by decide)]
      rw [show fence3 ++ '\n' :: t
          = backtickC :: ([backtickC, backtickC] ++ '\n' :: t) from rfl]
      exact List.dropWhile_cons_of_neg (by decide)]
    rw [litTok_self_append fence3 ('\n' :: t)]
    rfl
  have hfind := findCloseLazy_spec mid [] ('\n' :: fence3 ++ '\n' :: t) h2 hfence
  rw [show fenceJson ++ '\n' :: (lbrace :: mid ++ [rbrace]) ++ '\n' :: fence3 ++ '\n' :: t
      = fenceJson ++ ('\n' :: (lbrace :: mid ++ [rbrace]) ++ '\n' :: fence3 ++ '\n' :: t)
      from by simp]
  simp only [tryFenceAt, hlit, hdw, hfind]
  simp

theorem strategy3_fenced (mid t : List Char)
    (h2 : backtickC ∉ mid) :
    strategy3_extract (fenceJson ++ '\n' :: (lbrace :: mid ++ [rbrace])
        ++ '\n' :: fence3 ++ '\n' :: t) =
      some (lbrace :: mid ++ [rbrace]) := by
  have hTry := tryFenceAt_fenced mid t h2
  have hcons : fenceJson ++ '\n' :: (lbrace :: mid ++ [rbrace])
      ++ '\n' :: fence3 ++ '\n' :: t
      = backtickC :: ([backtickC, backtickC, 'j', 's', 'o', 'n']
        ++ '\n' :: (lbrace :: mid ++ [rbrace]) ++ '\n' :: fence3 ++ '\n' :: t) := rfl
  rw [hcons] at hTry ⊢
  rw [strategy3_extract, hTry]

/-- C8. The original claim is false: on `respCounterC8` — a valid JSON object
inside a ```json fence with a trailing sentence — the extractor returns a
mapping whose reportText value lost its leading quote, not the mapping
encoded by the fenced JSON. -/
theorem claim8_fenced_extraction_counterexample :
    json_loads jsonCounterC8
        = some (JVal.jobj [("reportText", JVal.jstr "\"y\x7d```\"")]) ∧
    extract_json_from_response respCounterC8
        = JVal.jobj [("reportText", JVal.jstr "y\x7d```\"")] ∧
    ("y\x7d```\"" : String) ≠ "\"y\x7d```\"" :=
  ⟨rfl, rfl, by decide⟩

/-- C8 (amended). When the fenced object itself is backtick-free and the
trailing sentence is backtick-free and not all whitespace, strategy 3
recovers the braced group exactly and the extractor returns the mapping
encoded by the fenced JSON. -/
theorem claim8_fenced_extraction (mid t : List Char) (fields : List (String × JVal))
    (h1 : json_loadsL (lbrace :: mid ++ [rbrace]) = some (.jobj fields))
    (h2 : backtickC ∉ mid) (h3 : backtickC ∉ t)
    (h4 : t.any (fun c => !(isPyWs c)) = true) :
    strategy3_extract (fenceJson ++ '\n' :: (lbrace :: mid ++ [rbrace])
        ++ '\n' :: fence3 ++ '\n' :: t) = some (lbrace :: mid ++ [rbrace]) ∧
    extract_json_from_responseL (fenceJson ++ '\n' :: (lbrace :: mid ++ [rbrace])
        ++ '\n' :: fence3 ++ '\n' :: t) = JVal.jobj fields := by
  have hs3 := strategy3_fenced mid t h2
  refine ⟨hs3, ?_⟩
  have hS1 : json_loadsL (fenceJson ++ '\n' :: (lbrace :: mid ++ [rbrace])
      ++ '\n' :: fence3 ++ '\n' :: t) = none := by
    rw [show fenceJson ++ '\n' :: (lbrace :: mid ++ [rbrace])
        ++ '\n' :: fence3 ++ '\n' :: t
        = fenceJson ++ ('\n' :: (lbrace :: mid ++ [rbrace])
          ++ '\n' :: fence3 ++ '\n' :: t) from by simp]
    exact json_loadsL_fence_prefix _
  have hS2 := clean_json_fenced_none mid t fields h1 h3 h4
  simp only [extract_json_from_responseL, hS1, hS2, hs3, Option.some_bind, h1]

theorem claim8_fenced_extraction_witness :
    strategy3_extract (fenceJson ++ '\n' :: (lbrace :: "\"a\": \"b\"".toList ++ [rbrace])
        ++ '\n' :: fence3 ++ '\n' :: "Here is the JSON.".toList)
      = some (lbrace :: "\"a\": \"b\"".toList ++ [rbrace]) ∧
    extract_json_from_responseL (fenceJson ++ '\n' :: (lbrace :: "\"a\": \"b\"".toList ++ [rbrace])
        ++ '\n' :: fence3 ++ '\n' :: "Here is the JSON.".toList)
      = JVal.jobj [("a", JVal.jstr "b")] :=
  claim8_fenced_extraction "\"a\": \"b\"".toList "Here is the JSON.".toList
    [("a", JVal.jstr "b")] (by rfl) (by decide) (by decide) (by decide)
